import Mathlib

/-!
# Verification of the pg_sexp binary S-expression engine

This file shallowly embeds the core of `pg_sexp` (a PostgreSQL extension that
stores S-expressions in a compact binary format) and settles a list of claims
about it against the source.

Level of the embedding.  The C code walks raw byte buffers.  Every function we
model branches only on information that is recoverable from the decoded
structure together with the *encoding choices* (small-int vs. varint integer,
short vs. long string, small vs. large list, and — for large lists — the stored
structural-hash field).  We therefore embed values as an encoding-annotated
tree `SexpE` in which

  * symbol references are resolved to the symbol's byte string (the per-value
    symbol table is an indirection the walked code always resolves before
    comparing or hashing; out-of-range indices are data corruption and are not
    representable here),
  * varints are assumed canonical (the only encodings the code ever writes),
  * floats carry their IEEE-754 binary64 bit pattern as a `Nat < 2^64`.

Each Lean function mirrors one C function case-by-case; the doc comments name
the source function.
-/

namespace PgSexp

/-! ## Hash primitives

`hash_bytes` / `hash_bytes_uint32` come from PostgreSQL's `common/hashfn.h`,
which is not part of this repository.  Modelled from the spec: "All hashing
uses a *stable* byte-hash function (stable across processes and releases) with
a 32-bit output."  We use a concrete stable 32-bit byte hash as the stand-in
(a base-257 polynomial in the bytes, little-endian, modulo the prime
4294967291 < 2^32); none of the claims below depends on which stable
byte-hash is used, only on it being a fixed function of the bytes. -/
def hashBytes (bs : List Nat) : Nat :=
  bs.foldr (fun b a => (a * 257 + b % 256) % 4294967291) 0

/-- Little-endian byte list of `n`, `k` bytes long (C memory image of a
fixed-width integer). -/
def leBytes : Nat → Nat → List Nat
  | 0, _ => []
  | k + 1, n => (n % 256) :: leBytes k (n / 256)

/-- `hash_bytes_uint32` (PostgreSQL, not in src): stable hash of a `uint32`,
modelled as the byte hash of its 4-byte little-endian image. -/
def hashBytesU32 (v : Nat) : Nat := hashBytes (leBytes 4 (v % 4294967296))

/-- `hash_combine` (PostgreSQL `common/hashfn.h`):
`a ^ (b + 0x9e3779b9 + (a<<6) + (a>>2))` in `uint32` arithmetic. -/
def hashCombine (a b : Nat) : Nat :=
  a ^^^ ((b + 0x9e3779b9 + a * 64 + a / 4) % 4294967296)

/-- `sexp_hash_uint32` (sexp_debug.h / pg_sexp.h). -/
def sexpHashUint32 (v : Nat) : Nat := hashBytesU32 v

/-- Two's-complement `uint64` image of an `int64`. -/
def toU64 (v : Int) : Nat := (v % (2 ^ 64 : Nat)).toNat

/-- `sexp_hash_int64`: `hash_bytes` over the 8-byte memory image of the
`int64` value. -/
def sexpHashInt64 (v : Int) : Nat := hashBytes (leBytes 8 (toU64 v))

/-- The bit pattern of IEEE-754 binary64 `+0.0`. -/
def posZeroBits : Nat := 0

/-- The bit pattern of IEEE-754 binary64 `-0.0`. -/
def negZeroBits : Nat := 0x8000000000000000

/-- Whether a binary64 bit pattern denotes a zero. -/
def isZeroBits (bits : Nat) : Bool := bits == posZeroBits || bits == negZeroBits

/-- Whether a binary64 bit pattern denotes a NaN (exponent all ones, nonzero
mantissa). -/
def isNaNBits (bits : Nat) : Bool :=
  (bits / 2 ^ 52) % 2 ^ 11 == 2047 && bits % 2 ^ 52 != 0

/-- IEEE-754 `==` on binary64 bit patterns: NaN compares unequal to
everything; `-0.0 == +0.0`; otherwise bitwise. -/
def ieeeEqBits (a b : Nat) : Bool :=
  if isNaNBits a || isNaNBits b then false
  else a == b || (isZeroBits a && isZeroBits b)

/-- `sexp_hash_float64` (sexp_debug.h): `-0.0` is normalized to `+0.0`
(`if (value == 0.0) value = 0.0;`), then the 8-byte bit image is hashed. -/
def sexpHashFloat64 (bits : Nat) : Nat :=
  hashBytes (leBytes 8 (if isZeroBits bits then posZeroBits else bits % 2 ^ 64))

/-- `sexp_hash_string_with_tag` (sexp_debug.h):
`hash_combine(hash_bytes_uint32(tag), hash_bytes(str))`. -/
def sexpHashStringWithTag (tag : Nat) (s : List Nat) : Nat :=
  hashCombine (hashBytesU32 tag) (hashBytes s)

/-- `rotl32` (sexp_debug.h): 32-bit left rotation. -/
def rotl32 (x r : Nat) : Nat :=
  ((x * 2 ^ (r % 32)) % 4294967296) + (x % 4294967296) / 2 ^ (32 - r % 32)

/-- `sexp_hash_combine` (sexp_debug.h): combine a child hash into the parent
hash, rotated by `position % 31` to make the result order-dependent. -/
def sexpHashCombinePos (parent child : Nat) (pos : Nat) : Nat :=
  hashCombine parent (rotl32 child (pos % 31))

/-! ## Tag bytes (pg_sexp.h) -/

def TAG_NIL : Nat := 0x00
def TAG_SMALLINT : Nat := 0x20
def TAG_INTEGER : Nat := 0x40
def TAG_FLOAT : Nat := 0x60
def TAG_SYMBOL_REF : Nat := 0x80
def TAG_SHORT_STRING : Nat := 0xA0
def TAG_LONG_STRING : Nat := 0xC0
def TAG_LIST : Nat := 0xE0

/-- `SEXP_SMALL_LIST_MAX` (pg_sexp.h). -/
def SMALL_LIST_MAX : Nat := 4

/-- `SEXP_SHORT_STRING_MAX` (pg_sexp.h). -/
def SHORT_STRING_MAX : Nat := 31

/-- `SEXP_MAX_DEPTH` (pg_sexp.h). -/
def MAX_DEPTH : Nat := 1000

/-- `SEXP_SMALLINT_MIN` / `SEXP_SMALLINT_MAX` (pg_sexp.h). -/
def SMALLINT_MIN : Int := -16
def SMALLINT_MAX : Int := 15

/-! ## Values

Encoding-annotated S-expression values.  The constructors correspond exactly
to the eight element encodings of the v6 binary format (pg_sexp.h §Element
encoding); `listLarge` additionally carries the stored structural-hash field
of the large-list header. -/
inductive SexpE : Type where
  | nil : SexpE
  | smallInt (v : Int) : SexpE
  | intVar (v : Int) : SexpE
  | float (bits : Nat) : SexpE
  | symbol (s : List Nat) : SexpE
  | shortStr (s : List Nat) : SexpE
  | longStr (s : List Nat) : SexpE
  | listSmall (cs : List SexpE) : SexpE
  | listLarge (h : Nat) (cs : List SexpE) : SexpE

namespace SexpE

mutual
/-- Structural (byte-level) equality of encoding-annotated values: two values
have identical binary encodings (given one shared symbol table) iff they are
the same tree with the same encoding annotations. -/
def beq : SexpE → SexpE → Bool
  | nil, nil => true
  | smallInt a, smallInt b => a == b
  | intVar a, intVar b => a == b
  | float a, float b => a == b
  | symbol a, symbol b => a == b
  | shortStr a, shortStr b => a == b
  | longStr a, longStr b => a == b
  | listSmall as, listSmall bs => beqList as bs
  | listLarge h as, listLarge k bs => h == k && beqList as bs
  | _, _ => false

/-- Pairwise structural equality of child lists. -/
def beqList : List SexpE → List SexpE → Bool
  | [], [] => true
  | a :: as, b :: bs => beq a b && beqList as bs
  | _, _ => false
end

instance : BEq SexpE := ⟨beq⟩

/-- The kind tag (top three bits of the first byte) of an element. -/
def tagOf : SexpE → Nat
  | nil => TAG_NIL
  | smallInt _ => TAG_SMALLINT
  | intVar _ => TAG_INTEGER
  | float _ => TAG_FLOAT
  | symbol _ => TAG_SYMBOL_REF
  | shortStr _ => TAG_SHORT_STRING
  | longStr _ => TAG_LONG_STRING
  | listSmall _ => TAG_LIST
  | listLarge _ _ => TAG_LIST

/-- The tag byte of a small-int element: `SEXP_TAG_SMALLINT |
(uint8)(val + SEXP_SMALLINT_BIAS)` (parse_number_or_symbol). -/
def smallIntByte (v : Int) : Nat := TAG_SMALLINT ||| ((v + 16).emod 256).toNat

/-- The first (tag) byte of an element's encoding. -/
def firstByte : SexpE → Nat
  | nil => TAG_NIL
  | smallInt v => smallIntByte v
  | intVar _ => TAG_INTEGER
  | float _ => TAG_FLOAT
  | symbol _ => TAG_SYMBOL_REF
  | shortStr s => TAG_SHORT_STRING ||| (s.length % 32)
  | longStr _ => TAG_LONG_STRING
  | listSmall cs => TAG_LIST ||| (cs.length % 32)
  | listLarge _ _ => TAG_LIST

/-- SEntry type codes (pg_sexp.h). -/
def SENTRY_NIL : Nat := 0
def SENTRY_INTEGER : Nat := 1
def SENTRY_FLOAT : Nat := 2
def SENTRY_SYMBOL : Nat := 3
def SENTRY_STRING : Nat := 4
def SENTRY_LIST : Nat := 5

/-- `get_sentry_type_from_byte` (pg_sexp.c): the SEntry type of an element,
merging small-int with integer and short with long strings. -/
def sentryType : SexpE → Nat
  | nil => SENTRY_NIL
  | smallInt _ => SENTRY_INTEGER
  | intVar _ => SENTRY_INTEGER
  | float _ => SENTRY_FLOAT
  | symbol _ => SENTRY_SYMBOL
  | shortStr _ => SENTRY_STRING
  | longStr _ => SENTRY_STRING
  | listSmall _ => SENTRY_LIST
  | listLarge _ _ => SENTRY_LIST

/-- Child list of a list element (empty for atoms). -/
def childrenOf : SexpE → List SexpE
  | listSmall cs => cs
  | listLarge _ cs => cs
  | _ => []

/-- Whether the element is one of the two list encodings. -/
def isList : SexpE → Bool
  | listSmall _ => true
  | listLarge _ _ => true
  | _ => false

/-- Whether the element is a non-list, non-NIL atom. -/
def isAtom : SexpE → Bool
  | nil => false
  | listSmall _ => false
  | listLarge _ _ => false
  | _ => true

end SexpE

open SexpE

/-- `zigzag_encode` (pg_sexp.h): `(uint64)((value << 1) ^ (value >> 63))`,
i.e. `2v` for `v ≥ 0` and `2|v| - 1` for `v < 0`. -/
def zigzagEncode (v : Int) : Nat :=
  if 0 ≤ v then (2 * v).toNat else (2 * (-v) - 1).toNat

/-- `zigzag_decode` (pg_sexp.h). -/
def zigzagDecode (n : Nat) : Int :=
  if n % 2 == 0 then (n / 2 : Nat) else -((n + 1) / 2 : Nat)

/-! ## Semantic hash (`sexp_element_hash`, pg_sexp.c lines 1433-1573) -/

/-- The structural hash of a list *recomputed from its children's hashes*:
seed with `hash(count)` combined with `hash(LIST_TAG)`, then fold the child
hashes in order with position mixing.  This is the computation `parse_list`
performs (sexp_parser.c lines 474-480) and the one the small-list branch of
`sexp_element_hash` performs. -/
def listHashOf (hs : List Nat) : Nat :=
  (hs.enum.foldl (fun acc p => sexpHashCombinePos acc p.2 p.1)
    (hashCombine (sexpHashUint32 hs.length) (sexpHashUint32 TAG_LIST)))

mutual
/-- `sexp_element_hash` (pg_sexp.c):  the semantic hash of an element.
NIL hashes to 0; small-int and integer both hash with `SEXP_TAG_INTEGER`;
short and long strings both hash with `SEXP_TAG_SHORT_STRING`; symbols hash
by their text.  For a **large list the stored hash field is returned as-is**
("Large list - hash is stored!"); for a small list the hash is recomputed
from the children. -/
def elemHash : SexpE → Nat
  | .nil => 0
  | .smallInt v => hashCombine (sexpHashUint32 TAG_INTEGER) (sexpHashInt64 v)
  | .intVar v => hashCombine (sexpHashUint32 TAG_INTEGER) (sexpHashInt64 v)
  | .float bits => hashCombine (sexpHashUint32 TAG_FLOAT) (sexpHashFloat64 bits)
  | .symbol s => sexpHashStringWithTag TAG_SYMBOL_REF s
  | .shortStr s => sexpHashStringWithTag TAG_SHORT_STRING s
  | .longStr s => sexpHashStringWithTag TAG_SHORT_STRING s
  | .listSmall cs => listHashOf (elemHashList cs)
  | .listLarge h _ => h

/-- Hashes of a list of children, in order. -/
def elemHashList : List SexpE → List Nat
  | [] => []
  | c :: cs => elemHash c :: elemHashList cs
end

/-- `sexp_compute_hash` (pg_sexp.c): hash of the root element; this is what
the SQL-level `hash(value)` returns. -/
def sexpComputeHash (v : SexpE) : Nat := elemHash v

/-- The structural hash of a list of children recomputed from scratch
(ignoring any stored hash fields at the top level only). -/
def recomputedListHash (cs : List SexpE) : Nat := listHashOf (elemHashList cs)

/-! ## Equality (`sexp_equal` / `elements_equal_recursive`, pg_sexp.c 610-1047) -/

mutual
/-- `elements_equal_recursive` (pg_sexp.c lines 866-1047): lockstep walk.
Different kind tags compare unequal — including `SEXP_TAG_SMALLINT` vs
`SEXP_TAG_INTEGER` and short vs long strings (the C switch is only entered
when `tag_a == tag_b`).  Both list encodings share `SEXP_TAG_LIST`, so a
small list can compare equal to a large list; counts must agree and children
compare pairwise.  Small-ints compare by tag byte, integers by decoded
varint, floats by IEEE `==`, symbols by text, strings by content.
(The cursor-advancing bookkeeping of the C code has no semantic effect.) -/
def elementsEqualRec : SexpE → SexpE → Bool
  | .nil, .nil => true
  | .smallInt a, .smallInt b => smallIntByte a == smallIntByte b
  | .intVar a, .intVar b => zigzagEncode a == zigzagEncode b
  | .float a, .float b => ieeeEqBits a b
  | .symbol a, .symbol b => a == b
  | .shortStr a, .shortStr b => a == b
  | .longStr a, .longStr b => a == b
  | .listSmall as, .listSmall bs => as.length == bs.length && eqL as bs
  | .listSmall as, .listLarge _ bs => as.length == bs.length && eqL as bs
  | .listLarge _ as, .listSmall bs => as.length == bs.length && eqL as bs
  | .listLarge _ as, .listLarge _ bs => as.length == bs.length && eqL as bs
  | _, _ => false

/-- Pairwise recursive equality of children. -/
def eqL : List SexpE → List SexpE → Bool
  | [], [] => true
  | a :: as, b :: bs => elementsEqualRec a b && eqL as bs
  | _, _ => false
end

/-- `sexp_equal` (pg_sexp.c lines 621-643): byte-identical fast path (which at
this level is structural identity of the encoding-annotated trees), otherwise
the recursive semantic walk. -/
def sexpEqual (a b : SexpE) : Bool := a == b || elementsEqualRec a b

/-! ## List operations (pg_sexp.c) -/

/-- Error outcome of `car`/`cdr` on a non-list, non-NIL atom:
`ereport(ERROR, (errcode(ERRCODE_DATATYPE_MISMATCH), ...))`. -/
inductive OpErr : Type where
  | datatypeMismatch (msg : String) : OpErr
deriving DecidableEq

/-- `sexp_car` (pg_sexp.c lines 1064-1123): NIL returns NULL (absent); a
non-list tag raises "car requires a list"; a list yields its first child
extracted as a standalone value (`extract_element_fast` copies the child's
bytes under the parent's header, so the child is returned unchanged).  A
(recv-craftable) zero-count large list also returns NULL. -/
def sexpCar : SexpE → Except OpErr (Option SexpE)
  | .nil => .ok none
  | .listSmall cs => .ok cs.head?
  | .listLarge _ cs => .ok cs.head?
  | _ => .error (.datatypeMismatch "car requires a list")

/-- `sexp_cdr` (pg_sexp.c lines 1130-1291): NIL returns NULL (absent); a
non-list tag raises "cdr requires a list"; a list of count ≤ 1 yields NIL;
otherwise a new list of elements 1..count-1 is built — small format when
`count - 1 <= SEXP_SMALL_LIST_MAX`, otherwise the large format whose stored
structural-hash field is written as `dummy_hash = 0`
("TODO: compute proper hash", line 1221). -/
def sexpCdr : SexpE → Except OpErr (Option SexpE)
  | .nil => .ok none
  | .listSmall cs =>
      if cs.length ≤ 1 then .ok (some .nil)
      else if cs.length - 1 ≤ SMALL_LIST_MAX then .ok (some (.listSmall cs.tail))
      else .ok (some (.listLarge 0 cs.tail))
  | .listLarge _ cs =>
      if cs.length ≤ 1 then .ok (some .nil)
      else if cs.length - 1 ≤ SMALL_LIST_MAX then .ok (some (.listSmall cs.tail))
      else .ok (some (.listLarge 0 cs.tail))
  | _ => .error (.datatypeMismatch "cdr requires a list")

/-- `sexp_nth` (pg_sexp.c lines 1347-1406): a negative index returns NULL;
NIL returns NULL; a non-list atom returns *itself* for index 0 and NULL for
any other index; a list returns child `n` when `n < count`, NULL otherwise.
`nth` never raises an error. -/
def sexpNth (v : SexpE) (n : Int) : Option SexpE :=
  if n < 0 then none
  else
    match v with
    | .nil => none
    | .listSmall cs => cs.get? n.toNat
    | .listLarge _ cs => cs.get? n.toNat
    | a => if n == 0 then some a else none

/-- `sexp_length` (pg_sexp.c lines 1297-1341): 0 for NIL, 1 for atoms, the
stored count for lists. -/
def sexpLength : SexpE → Nat
  | .nil => 0
  | .listSmall cs => cs.length
  | .listLarge _ cs => cs.length
  | _ => 1

/-! ## Text parser (sexp_parser.c)

The parser is embedded over `List Char`.  Recursion is fuel-indexed (the C
code recurses on the input; the top-level entry point supplies fuel larger
than the input length, which is an upper bound on the recursion the C code
performs). -/

/-- Parse errors (the `ereport` kinds raised by sexp_parser.c), plus
`outOfFuel`, which is never reached when the fuel exceeds the input length. -/
inductive PErr : Type where
  | unexpectedEnd : PErr
  | trailingGarbage : PErr
  | unterminatedList : PErr
  | unterminatedString : PErr
  | unterminatedEscape : PErr
  | emptyAtom : PErr
  | depthExceeded : PErr
  | outOfFuel : PErr
deriving DecidableEq

/-- C `isspace` in the default locale. -/
def isSpaceC (c : Char) : Bool :=
  c == ' ' || c == '\t' || c == '\n' || c == '\x0b' || c == '\x0c' || c == '\r'

mutual
/-- `skip_whitespace` (sexp_parser.c lines 315-335): skip spaces and `;` line
comments. -/
def skipWs : List Char → List Char
  | [] => []
  | c :: cs =>
      if isSpaceC c then skipWs cs
      else if c == ';' then skipComment cs
      else c :: cs

/-- Inside a `;` comment: skip to the next newline (which `skip_whitespace`
then consumes as whitespace). -/
def skipComment : List Char → List Char
  | [] => []
  | c :: cs => if c == '\n' then skipWs cs else skipComment cs
end

/-- `strtoll` saturation bounds. -/
def INT64_MAX : Int := 2 ^ 63 - 1
def INT64_MIN : Int := -(2 ^ 63)

/-- Decimal digit accumulation of `strtoll` on `[sign] digits` (the only
token shapes that reach the integer branch), saturating at the `int64`
bounds as C `strtoll` does on overflow. -/
def strtollSat (tok : List Char) : Int :=
  let (neg, ds) :=
    match tok with
    | '-' :: r => (true, r)
    | '+' :: r => (false, r)
    | r => (false, r)
  let m : Nat := ds.foldl (fun a c => a * 10 + (c.toNat - '0'.toNat)) 0
  let v : Int := if neg then -(m : Int) else (m : Int)
  if v > INT64_MAX then INT64_MAX else if v < INT64_MIN then INT64_MIN else v

/-- Modelled from the spec: the float branch of `parse_number_or_symbol`
calls the C library's `strtod` (not part of this repository) and stores the
resulting binary64.  The spec says only that the value is "an IEEE-754
binary64".  No claim below depends on which bit pattern a given decimal
token denotes, so the conversion is modelled as a fixed injection of the
token into a bit pattern. -/
def strtodBits (tok : List Char) : Nat := hashBytes (tok.map Char.toNat) % 2 ^ 64

/-- The stop characters of the token scan in `parse_number_or_symbol`
(sexp_parser.c lines 651-657): whitespace, parens, quote, comment. -/
def isTokenStop (c : Char) : Bool :=
  isSpaceC c || c == '(' || c == ')' || c == '"' || c == ';'

/-- One step of the classification flags of `parse_number_or_symbol`
(sexp_parser.c lines 658-680).  State: (is_number, has_dot, has_digit),
`first` is true at the first character of the token. -/
def numFlagsStep (first : Bool) (st : Bool × Bool × Bool) (c : Char) :
    Bool × Bool × Bool :=
  let (isNum, hasDot, hasDigit) := st
  if c == '-' || c == '+' then
    (if first then isNum else false, hasDot, hasDigit)
  else if c == '.' then
    ((if hasDot then false else isNum), true, hasDigit)
  else if c.isDigit then
    (isNum, hasDot, true)
  else
    (false, hasDot, hasDigit)

/-- The classification flags after scanning a whole token. -/
def numFlags : List Char → Bool × Bool × Bool
  | [] => (true, false, false)
  | c :: cs =>
      (cs.foldl (fun st d => numFlagsStep false st d)
        (numFlagsStep true (true, false, false) c))

/-- `parse_number_or_symbol` (sexp_parser.c lines 639-779) applied to an
already-scanned token: `nil` produces NIL; a token whose scan left
`is_number && has_digit` produces a float (if it had a dot) or an integer
(small-int encoding for -16..15, zig-zag varint otherwise); everything else
is interned as a symbol. -/
def classifyToken (tok : List Char) : Except PErr SexpE :=
  if tok.isEmpty then .error .emptyAtom
  else if tok == ['n', 'i', 'l'] then .ok .nil
  else
    let (isNum, hasDot, hasDigit) := numFlags tok
    if isNum && hasDigit then
      if hasDot then .ok (.float (strtodBits tok))
      else
        let v := strtollSat tok
        if SMALLINT_MIN ≤ v && v ≤ SMALLINT_MAX then .ok (.smallInt v)
        else .ok (.intVar v)
    else .ok (.symbol (tok.map Char.toNat))

/-- Scan a token: the maximal prefix free of stop characters. -/
def scanToken : List Char → List Char × List Char
  | [] => ([], [])
  | c :: cs =>
      if isTokenStop c then ([], c :: cs)
      else
        let (t, r) := scanToken cs
        (c :: t, r)

/-- String-body scanner of `parse_string` (sexp_parser.c lines 548-633):
process escapes (`\n`, `\t`, `\r`, `\\`, `\"`; any other escaped character
passes through) until the closing quote. -/
def scanString : List Char → Except PErr (List Char × List Char)
  | [] => .error .unterminatedString
  | c :: cs =>
      if c == '"' then .ok ([], cs)
      else if c == '\\' then
        match cs with
        | [] => .error .unterminatedEscape
        | e :: cs2 =>
            let d : Char :=
              if e == 'n' then '\n'
              else if e == 't' then '\t'
              else if e == 'r' then '\r'
              else e
            (scanString cs2).map (fun p => (d :: p.1, p.2))
      else (scanString cs).map (fun p => (c :: p.1, p.2))

/-- The string-encoding decision of `parse_string`: short encoding for
length ≤ `SEXP_SHORT_STRING_MAX`, long otherwise. -/
def encodeString (s : List Char) : SexpE :=
  if s.length ≤ SHORT_STRING_MAX then .shortStr (s.map Char.toNat)
  else .longStr (s.map Char.toNat)

/-- The list-encoding decision of `parse_list` (sexp_parser.c lines 492-518):
small inline format for count ≤ `SEXP_SMALL_LIST_MAX`, otherwise the large
format whose stored structural-hash field is the hash recomputed from the
children (lines 474-480, 511). -/
def encodeListParse (cs : List SexpE) : SexpE :=
  if cs.isEmpty then .nil
  else if cs.length ≤ SMALL_LIST_MAX then .listSmall cs
  else .listLarge (recomputedListHash cs) cs

mutual
/-- `sexp_parse_value_with_hash` (sexp_parser.c lines 286-310): skip
whitespace, then dispatch on `(`, `"`, or an atom token. -/
def parseValueF : Nat → Nat → List Char → Except PErr (SexpE × List Char)
  | 0, _, _ => .error .outOfFuel
  | fuel + 1, depth, s =>
      match skipWs s with
      | [] => .error .unexpectedEnd
      | c :: cs =>
          if c == '(' then parseListF fuel depth cs
          else if c == '"' then
            (scanString cs).map (fun p => (encodeString p.1, p.2))
          else
            let (tok, rest) := scanToken (c :: cs)
            (classifyToken tok).map (fun v => (v, rest))

/-- `parse_list` (sexp_parser.c lines 385-525), entered *after* the opening
paren has been consumed: first `SEXP_CHECK_DEPTH(state->depth)` errors when
the current depth has reached `SEXP_MAX_DEPTH`; an immediate `)` yields NIL;
otherwise the elements are parsed at depth+1 and the list is encoded. -/
def parseListF : Nat → Nat → List Char → Except PErr (SexpE × List Char)
  | 0, _, _ => .error .outOfFuel
  | fuel + 1, depth, s =>
      if depth ≥ MAX_DEPTH then .error .depthExceeded
      else
        match skipWs s with
        | [] => .error .unterminatedList
        | c :: cs =>
            if c == ')' then .ok (.nil, cs)
            else parseElemsF fuel (depth + 1) (c :: cs) []

/-- The element loop of `parse_list` (sexp_parser.c lines 425-470): while the
next character is not `)`, parse one element and skip whitespace; reaching
the end of input is "unterminated list". -/
def parseElemsF : Nat → Nat → List Char → List SexpE →
    Except PErr (SexpE × List Char)
  | 0, _, _, _ => .error .outOfFuel
  | fuel + 1, depth, s, acc =>
      match s with
      | [] => .error .unterminatedList
      | c :: cs =>
          if c == ')' then .ok (encodeListParse acc.reverse, cs)
          else
            match parseValueF fuel depth (c :: cs) with
            | .error e => .error e
            | .ok (v, s2) => parseElemsF fuel depth (skipWs s2) (v :: acc)
end

/-- `sexp_parse` (sexp_parser.c lines 193-271): empty input yields NIL;
otherwise one value is parsed and trailing non-whitespace is an error.
The fuel `4 * length + 8` strictly dominates the depth of the recursion the
C parser performs on the same input (each level of the value/list/element
call chain consumes at least one input character per three fuel units). -/
def sexpParse (input : List Char) : Except PErr SexpE :=
  match skipWs input with
  | [] => .ok .nil
  | s =>
      match parseValueF (4 * input.length + 8) 0 s with
      | .error e => .error e
      | .ok (v, rest) =>
          if (skipWs rest).isEmpty then .ok v else .error .trailingGarbage

/-- Convenience: parse a Lean string literal. -/
def parseStr (s : String) : Except PErr SexpE := sexpParse s.data

/-! ## Pattern matching (sexp_match.c) -/

/-- `PatternType` (pg_sexp.h). -/
inductive PatternType : Type where
  | wildcard : PatternType
  | wildcardRest : PatternType
  | capture : PatternType
  | captureRest : PatternType
deriving DecidableEq

/-- `is_pattern_symbol` (sexp_match.c lines 31-81): classify a symbol's text
as a pattern token.  `_` is the wildcard, `_*` the rest wildcard, `??name`
a rest capture, `?name` a single capture (the capture names are recorded in
the C code but discarded by predicate-only matching). -/
def isPatternSymbol (s : List Nat) : Option PatternType :=
  if s == ['_'.toNat] then some .wildcard
  else if s == ['_'.toNat, '*'.toNat] then some .wildcardRest
  else
    match s with
    | a :: b :: _ => if a == '?'.toNat && b == '?'.toNat then some .captureRest
                     else if a == '?'.toNat then some .capture
                     else none
    | a :: _ => if a == '?'.toNat then some .capture else none
    | [] => none

/-- Whether a pattern element is a rest token (`_*` or `??name`) — the test
`match_elements` performs before consuming a pattern element. -/
def isRestElem (p : SexpE) : Bool :=
  match p with
  | .symbol s =>
      match isPatternSymbol s with
      | some .wildcardRest => true
      | some .captureRest => true
      | _ => false
  | _ => false

mutual
/-- `elements_match` (sexp_match.c lines 232-391): if the pattern element is
a pattern symbol, a wildcard or single capture matches any one expression
element and a rest token fails at this level (it is handled by the list
loop); otherwise the two elements match literally — equal tags required
(small-int and integer count as different tags here), scalar contents
compared, symbols by text, strings by content, lists via the element loop.
-/
def elementsMatch (e p : SexpE) : Bool :=
  match p with
  | .symbol s =>
      match isPatternSymbol s with
      | some .wildcard => true
      | some .capture => true
      | some .wildcardRest => false
      | some .captureRest => false
      | none => match e with
                | .symbol t => t == s
                | _ => false
  | .nil => match e with | .nil => true | _ => false
  | .smallInt b => match e with
                   | .smallInt a => smallIntByte a == smallIntByte b
                   | _ => false
  | .intVar b => match e with
                 | .intVar a => zigzagEncode a == zigzagEncode b
                 | _ => false
  | .float b => match e with | .float a => ieeeEqBits a b | _ => false
  | .shortStr b => match e with | .shortStr a => a == b | _ => false
  | .longStr b => match e with | .longStr a => a == b | _ => false
  | .listSmall ps => match e with
                     | .listSmall es => matchElements es ps
                     | .listLarge _ es => matchElements es ps
                     | _ => false
  | .listLarge _ ps => match e with
                       | .listSmall es => matchElements es ps
                       | .listLarge _ es => matchElements es ps
                       | _ => false

/-- `match_elements` (sexp_match.c lines 396-513): walk the pattern elements.
A rest token matches only in terminal position, where it consumes all
remaining expression elements; in non-terminal position the match fails.  A
non-rest pattern element requires one expression element and a recursive
element match.  After the pattern is exhausted the expression must be too. -/
def matchElements (es ps : List SexpE) : Bool :=
  match ps with
  | [] => es.isEmpty
  | p :: ps2 =>
      if isRestElem p then
        if ps2.isEmpty then true else false
      else
        match es with
        | [] => false
        | e :: es2 => elementsMatch e p && matchElements es2 ps2
end

/-- `sexp_match` (sexp_match.c lines 518-534): root-level element match. -/
def sexpMatch (expr pat : SexpE) : Bool := elementsMatch expr pat

/-! ## Bloom signatures (sexp_debug.h / pg_sexp.c) -/

/-- `BLOOM_K` (pg_sexp.h). -/
def BLOOM_K : Nat := 4

/-- `bloom_compute_sig` (sexp_debug.h): derive `BLOOM_K` bit positions from
an element hash by 8-bit rotations, OR-ing `1 << (rot & 63)`. -/
def bloomComputeSig (h : Nat) : Nat :=
  (List.range BLOOM_K).foldl
    (fun sig i => sig ||| 2 ^ (rotl32 h (i * 8) % 64)) 0

/-- `bloom_combine` (sexp_debug.h): union of two signatures. -/
def bloomCombine (a b : Nat) : Nat := a ||| b

/-- `bloom_may_contain` (sexp_debug.h): needle possibly contained iff
`needle & ~container = 0`, i.e. the needle's bits are a subset of the
container's. -/
def bloomMayContain (container needle : Nat) : Bool :=
  needle &&& (2 ^ 64 - 1 - container % 2 ^ 64) == 0

mutual
/-- `sexp_element_bloom` (pg_sexp.c lines 1995-2142): an atom contributes the
signature of its element hash (same formulas as `sexp_element_hash`); a list
contributes the union of its children's signatures plus its own signature
derived from `hash_combine(hash(count), hash(LIST_TAG))` — for large lists
the *stored* hash field is skipped and the signature is recomputed. -/
def elemBloom : SexpE → Nat
  | .nil => bloomComputeSig (sexpHashUint32 TAG_NIL)
  | .smallInt v =>
      bloomComputeSig (hashCombine (sexpHashUint32 TAG_INTEGER) (sexpHashInt64 v))
  | .intVar v =>
      bloomComputeSig (hashCombine (sexpHashUint32 TAG_INTEGER) (sexpHashInt64 v))
  | .float bits =>
      bloomComputeSig (hashCombine (sexpHashUint32 TAG_FLOAT) (sexpHashFloat64 bits))
  | .symbol s => bloomComputeSig (sexpHashStringWithTag TAG_SYMBOL_REF s)
  | .shortStr s => bloomComputeSig (sexpHashStringWithTag TAG_SHORT_STRING s)
  | .longStr s => bloomComputeSig (sexpHashStringWithTag TAG_SHORT_STRING s)
  | .listSmall cs =>
      bloomCombine (elemBloomList cs)
        (bloomComputeSig (hashCombine (sexpHashUint32 cs.length) (sexpHashUint32 TAG_LIST)))
  | .listLarge _ cs =>
      bloomCombine (elemBloomList cs)
        (bloomComputeSig (hashCombine (sexpHashUint32 cs.length) (sexpHashUint32 TAG_LIST)))

/-- Union of the Bloom signatures of a list of children. -/
def elemBloomList : List SexpE → Nat
  | [] => 0
  | c :: cs => bloomCombine (elemBloom c) (elemBloomList cs)
end

/-! ## Structural containment (`sexp_contains`, pg_sexp.c 1608-2248) -/

/-- `atom_compare_direct` (pg_sexp.c lines 1608-1729): type-directed atom
comparison.  Unequal tags compare unequal **except** the small-int/integer
pair, which is compared by decoded `int64` value.  Floats compare by
`memcmp` of the 8 bytes (bitwise, unlike the IEEE `==` of
`elements_equal_recursive`); symbols by text; strings by length+content;
lists fall through to `false` (the caller uses the recursive walk for
lists). -/
def atomCompareDirect (a b : SexpE) : Bool :=
  match a, b with
  | .smallInt x, .intVar y => x == y
  | .intVar x, .smallInt y => x == y
  | .nil, .nil => true
  | .smallInt x, .smallInt y => smallIntByte x == smallIntByte y
  | .intVar x, .intVar y => zigzagEncode x == zigzagEncode y
  | .float x, .float y => x == y
  | .symbol x, .symbol y => x == y
  | .shortStr x, .shortStr y => x == y
  | .longStr x, .longStr y => x == y
  | _, _ => false

mutual
/-- `contains_fast_scan` (pg_sexp.c lines 1738-1933): at the current node,
if the SEntry types agree and the first bytes agree, compare (atoms via
`atom_compare_direct`, lists via `elements_equal_recursive`); then, if the
node is a list, recurse into each child whose SEntry type is the needle's
type or LIST. -/
def containsFastScan (c e : SexpE) : Bool :=
  (if sentryType c == sentryType e && firstByte c == firstByte e then
    (if sentryType e != SENTRY_LIST then atomCompareDirect c e
     else elementsEqualRec c e)
   else false)
  ||
  (match c with
   | .listSmall cs => containsScanChildren cs e
   | .listLarge _ cs => containsScanChildren cs e
   | _ => false)

/-- The child loop of `contains_fast_scan`: type-filtered recursion. -/
def containsScanChildren (cs : List SexpE) (e : SexpE) : Bool :=
  match cs with
  | [] => false
  | child :: rest =>
      ((if sentryType child == sentryType e || sentryType child == SENTRY_LIST
        then containsFastScan child e else false))
      || containsScanChildren rest e
end

/-- `sexp_contains` (pg_sexp.c lines 2170-2248): compute the Bloom signatures
of container and needle and reject when the needle's bits are not a subset;
otherwise run the recursive type-filtered scan. -/
def sexpContains (container elem : SexpE) : Bool :=
  if !bloomMayContain (elemBloom container) (elemBloom elem) then false
  else containsFastScan container elem

/-! ## Key-based containment (`sexp_contains_key`, pg_sexp.c 2322-2896)

These functions recurse on both arguments non-structurally (the search
restarts `key_contains_recursive` on a container child with the same
needle), so they are fuel-indexed; the top-level entry point supplies fuel
exceeding the combined sizes, an upper bound on the C recursion depth. -/

mutual
/-- Node count of a value (bound for the fuel of the key-containment
search). -/
def sizeE : SexpE → Nat
  | .listSmall cs => 1 + sizeL cs
  | .listLarge _ cs => 1 + sizeL cs
  | _ => 1

/-- Node count of a list of values. -/
def sizeL : List SexpE → Nat
  | [] => 0
  | c :: cs => sizeE c + sizeL cs
end

mutual
/-- `element_key_matches` (pg_sexp.c lines 2361-2419): an atom needle must
compare equal (after the quick tag rejection that admits the
small-int/integer pair — which `elements_equal_recursive` then rejects
anyway); a list needle requires a list container element and key-based
containment at that element. -/
def elementKeyMatches : Nat → SexpE → SexpE → Bool
  | 0, _, _ => false
  | fuel + 1, c, n =>
      if n.tagOf != TAG_LIST then
        (if c.tagOf != n.tagOf &&
            !((c.tagOf == TAG_SMALLINT || c.tagOf == TAG_INTEGER) &&
              (n.tagOf == TAG_SMALLINT || n.tagOf == TAG_INTEGER))
         then false
         else elementsEqualRec c n)
      else if c.tagOf != TAG_LIST then false
      else keyContainsRec fuel c n

/-- `key_contains_recursive` (pg_sexp.c lines 2436-2656): both must be
lists; an empty needle list matches anything; the container must have at
least as many elements; heads must be equal under
`elements_equal_recursive`; then every needle tail element must be matched
by *some* container tail element (scanned from the front each time — the
container elements are not consumed). -/
def keyContainsRec : Nat → SexpE → SexpE → Bool
  | 0, _, _ => false
  | fuel + 1, c, n =>
      if c.tagOf != TAG_LIST || n.tagOf != TAG_LIST then false
      else
        match c.childrenOf, n.childrenOf with
        | _, [] => true
        | ccs, nh :: nts =>
            if ccs.length < (nh :: nts).length then false
            else
              match ccs with
              | [] => false
              | ch :: cts =>
                  elementsEqualRec ch nh &&
                  nts.all (fun ni =>
                    cts.any (fun ci =>
                      (if ni.tagOf != TAG_LIST && ci.tagOf != ni.tagOf &&
                          !((ci.tagOf == TAG_SMALLINT || ci.tagOf == TAG_INTEGER) &&
                            (ni.tagOf == TAG_SMALLINT || ni.tagOf == TAG_INTEGER))
                       then false
                       else elementKeyMatches fuel ci ni)))

/-- `contains_key_search` (pg_sexp.c lines 2664-2832): try a key-based match
at the current node (atoms via `atom_compare_direct` after a compatibility
check; lists via `key_contains_recursive`), then recurse into list children
— type-filtered: for an atom needle, children of the needle's SEntry type
or LIST (the small-list path filters by raw tag byte plus the
small-int/integer pair); for a list needle, only list children. -/
def containsKeySearch : Nat → SexpE → SexpE → Bool
  | 0, _, _ => false
  | fuel + 1, c, n =>
      (if n.tagOf != TAG_LIST then
        (if c.tagOf == n.tagOf ||
            ((c.tagOf == TAG_SMALLINT || c.tagOf == TAG_INTEGER) &&
             (n.tagOf == TAG_SMALLINT || n.tagOf == TAG_INTEGER))
         then atomCompareDirect c n else false)
       else if c.tagOf == TAG_LIST then keyContainsRec fuel c n
       else false)
      ||
      (if c.tagOf == TAG_LIST then
        (match c with
         | .listLarge _ ccs =>
             ccs.any (fun child =>
               (if n.tagOf != TAG_LIST then
                  sentryType child == sentryType n || sentryType child == SENTRY_LIST
                else sentryType child == SENTRY_LIST) &&
               containsKeySearch fuel child n)
         | .listSmall ccs =>
             ccs.any (fun child =>
               (if n.tagOf != TAG_LIST then
                  child.tagOf == n.tagOf || child.tagOf == TAG_LIST ||
                  ((child.tagOf == TAG_SMALLINT || child.tagOf == TAG_INTEGER) &&
                   (n.tagOf == TAG_SMALLINT || n.tagOf == TAG_INTEGER))
                else child.tagOf == TAG_LIST) &&
               containsKeySearch fuel child n)
         | _ => false)
       else false)
end

/-- Fuel that strictly dominates the recursion depth of the key-containment
search on given arguments. -/
def keyFuel (c n : SexpE) : Nat := sizeE c + sizeE n + 1

/-- Every value has at least one node. -/
theorem sizeE_pos (v : SexpE) : 0 < sizeE v := by
  cases v <;> simp [sizeE]

/-- `sexp_contains_key` (pg_sexp.c lines 2843-2896): Bloom fast rejection —
if the needle's Bloom bits are not a subset of the container's, return
false — otherwise run `contains_key_search` from the root. -/
def sexpContainsKey (container needle : SexpE) : Bool :=
  if !bloomMayContain (elemBloom container) (elemBloom needle) then false
  else containsKeySearch (keyFuel container needle) container needle

/-! ## GIN index support (sexp_gin.c) -/

/-- Key type markers (sexp_gin.c lines 44-51). -/
def KEY_TYPE_ATOM : Nat := 0x01000000
def KEY_TYPE_LIST_HEAD : Nat := 0x02000000
def KEY_TYPE_SYMBOL : Nat := 0x03000000
def KEY_TYPE_STRING : Nat := 0x04000000
def KEY_TYPE_INTEGER : Nat := 0x05000000
def KEY_TYPE_FLOAT : Nat := 0x06000000
def KEY_TYPE_PAIR : Nat := 0x07000000

/-- `MAX_GIN_KEYS` (sexp_gin.c line 54). -/
def MAX_GIN_KEYS : Nat := 1024

/-- Strategy numbers (sexp_gin.c lines 39-41). -/
def STRATEGY_STRUCTURAL : Nat := 7
def STRATEGY_CONTAINED : Nat := 8
def STRATEGY_KEY_BASED : Nat := 9

/-- `make_atom_key` (sexp_gin.c lines 172-178): combine marker and hash,
forcing the high bit so a key is never the hash-set sentinel.  Keys are kept
as their `uint32` bit patterns. -/
def makeAtomKey (marker h : Nat) : Nat := (marker ^^^ (h % 2 ^ 32)) ||| 0x80000000

/-- `add_key` (sexp_gin.c lines 184-203): drop the key when the cap is
reached or the key was already emitted (the open-addressed hash set performs
exact deduplication), otherwise append it. -/
def addKey (keys : List Nat) (k : Nat) : List Nat :=
  if keys.length ≥ MAX_GIN_KEYS then keys
  else if k ∈ keys then keys
  else keys ++ [k]

/-- `get_element_hash` (sexp_gin.c lines 209-316): a *bare* content hash
(no type-tag combine, unlike `sexp_element_hash`): integers by `int64`
image, floats normalized, symbols and strings by bytes, NIL by `hash(0)`;
a list hashes as its first element (`hash(0)` when empty). -/
def getElementHash : SexpE → Nat
  | .nil => sexpHashUint32 0
  | .smallInt v => sexpHashInt64 v
  | .intVar v => sexpHashInt64 v
  | .float bits => sexpHashFloat64 bits
  | .symbol s => hashBytes s
  | .shortStr s => hashBytes s
  | .longStr s => hashBytes s
  | .listSmall [] => sexpHashUint32 0
  | .listLarge _ [] => sexpHashUint32 0
  | .listSmall (c :: _) => getElementHash c
  | .listLarge _ (c :: _) => getElementHash c

/-- `is_pair_list` (sexp_gin.c lines 477, 774): a 2-element list whose first
element is a symbol reference. -/
def isPairList (cs : List SexpE) : Bool :=
  cs.length == 2 &&
  (match cs with
   | c :: _ => c.tagOf == TAG_SYMBOL_REF
   | [] => false)

/-- The keys the list case of the extraction adds for the list node itself
(sexp_gin.c lines 477-522 / 774-815): nothing for an empty value-side list;
a pair key for a 2-element symbol-headed pair unless `skipPair`; a
LIST_HEAD key from the head's `get_element_hash` for any other list. -/
def listNodeKeys (skipPair : Bool) (keys : List Nat) (cs : List SexpE) :
    List Nat :=
  match cs with
  | [] => keys
  | head :: rest =>
      let headHash := getElementHash head
      if isPairList cs then
        if skipPair then keys
        else
          match rest with
          | second :: _ =>
              let pairHash :=
                hashCombine (hashCombine KEY_TYPE_PAIR headHash)
                  (getElementHash second)
              addKey keys (makeAtomKey KEY_TYPE_PAIR pairHash)
          | _ => keys
      else addKey keys (makeAtomKey KEY_TYPE_LIST_HEAD headHash)

mutual
/-- `extract_keys_recursive_impl` (sexp_gin.c lines 345-547), value side:
each atom adds one typed content key; an empty list adds nothing; a
2-element symbol-headed pair adds a pair key (and no LIST_HEAD key), any
other list adds a LIST_HEAD key from its head's `get_element_hash`; children
are always recursed into.  (The `*nkeys >= MAX_GIN_KEYS` early exits only
stop work that `add_key` would drop anyway.)  The recursion is
fuel-indexed; the entry point supplies fuel dominating the node count. -/
def extractKeysVal : Nat → List Nat → SexpE → List Nat
  | 0, keys, _ => keys
  | _ + 1, keys, .nil => addKey keys (makeAtomKey KEY_TYPE_ATOM (sexpHashUint32 0))
  | _ + 1, keys, .smallInt v => addKey keys (makeAtomKey KEY_TYPE_INTEGER (sexpHashInt64 v))
  | _ + 1, keys, .intVar v => addKey keys (makeAtomKey KEY_TYPE_INTEGER (sexpHashInt64 v))
  | _ + 1, keys, .float bits => addKey keys (makeAtomKey KEY_TYPE_FLOAT (sexpHashFloat64 bits))
  | _ + 1, keys, .symbol s => addKey keys (makeAtomKey KEY_TYPE_SYMBOL (hashBytes s))
  | _ + 1, keys, .shortStr s => addKey keys (makeAtomKey KEY_TYPE_STRING (hashBytes s))
  | _ + 1, keys, .longStr s => addKey keys (makeAtomKey KEY_TYPE_STRING (hashBytes s))
  | fuel + 1, keys, .listSmall cs => extractKeysValFold fuel (listNodeKeys false keys cs) cs
  | fuel + 1, keys, .listLarge _ cs => extractKeysValFold fuel (listNodeKeys false keys cs) cs

/-- The child loop of the value-side extraction. -/
def extractKeysValFold : Nat → List Nat → List SexpE → List Nat
  | 0, keys, _ => keys
  | _ + 1, keys, [] => keys
  | fuel + 1, keys, c :: rest =>
      extractKeysValFold fuel (extractKeysVal fuel keys c) rest
end

/-- The query-side list-node keys (sexp_gin.c lines 767-815): an empty list
adds `make_atom_key(KEY_TYPE_ATOM, 0)`; a non-pair list adds a LIST_HEAD
key; a pair list adds its pair key only when `skip_pair_keys` is false. -/
def listNodeKeysQuery (skipPair : Bool) (keys : List Nat)
    (cs : List SexpE) : List Nat :=
  match cs with
  | [] => addKey keys (makeAtomKey KEY_TYPE_ATOM 0)
  | _ :: _ => listNodeKeys skipPair keys cs

mutual
/-- `extract_query_keys_recursive` (sexp_gin.c lines 649-840), query side:
like the value side except that an *empty* list adds
`make_atom_key(KEY_TYPE_ATOM, 0)` and that pair keys are added only when
`skip_pair_keys` is false (they are skipped for `@>>` queries). -/
def extractKeysQuery : Nat → Bool → List Nat → SexpE → List Nat
  | 0, _, keys, _ => keys
  | _ + 1, _, keys, .nil => addKey keys (makeAtomKey KEY_TYPE_ATOM (sexpHashUint32 0))
  | _ + 1, _, keys, .smallInt v => addKey keys (makeAtomKey KEY_TYPE_INTEGER (sexpHashInt64 v))
  | _ + 1, _, keys, .intVar v => addKey keys (makeAtomKey KEY_TYPE_INTEGER (sexpHashInt64 v))
  | _ + 1, _, keys, .float bits => addKey keys (makeAtomKey KEY_TYPE_FLOAT (sexpHashFloat64 bits))
  | _ + 1, _, keys, .symbol s => addKey keys (makeAtomKey KEY_TYPE_SYMBOL (hashBytes s))
  | _ + 1, _, keys, .shortStr s => addKey keys (makeAtomKey KEY_TYPE_STRING (hashBytes s))
  | _ + 1, _, keys, .longStr s => addKey keys (makeAtomKey KEY_TYPE_STRING (hashBytes s))
  | fuel + 1, skipPair, keys, .listSmall cs =>
      extractKeysQueryFold fuel skipPair (listNodeKeysQuery skipPair keys cs) cs
  | fuel + 1, skipPair, keys, .listLarge _ cs =>
      extractKeysQueryFold fuel skipPair (listNodeKeysQuery skipPair keys cs) cs

/-- The child loop of the query-side extraction. -/
def extractKeysQueryFold : Nat → Bool → List Nat → List SexpE → List Nat
  | 0, _, keys, _ => keys
  | _ + 1, _, keys, [] => keys
  | fuel + 1, skipPair, keys, c :: rest =>
      extractKeysQueryFold fuel skipPair (extractKeysQuery fuel skipPair keys c) rest
end

/-- `sexp_gin_extract_value` (sexp_gin.c lines 552-636): run the value-side
extraction from the root; an empty result is replaced by the single key
`make_atom_key(KEY_TYPE_ATOM, 0)`.  The fuel `2 * sizeE v + 2` strictly
dominates the extraction recursion depth. -/
def ginExtractValue (v : SexpE) : List Nat :=
  let keys := extractKeysVal (2 * sizeE v + 2) [] v
  if keys.isEmpty then [makeAtomKey KEY_TYPE_ATOM 0] else keys

/-- `sexp_gin_extract_query` (sexp_gin.c lines 845-969) for the containment
strategies: pair keys are kept for `@>` (STRUCTURAL, 7) and skipped for
`@>>` (KEY_BASED, 9); an empty result is replaced by the single key
`make_atom_key(KEY_TYPE_ATOM, 0)`. -/
def ginExtractQuery (strategy : Nat) (q : SexpE) : List Nat :=
  let keys :=
    extractKeysQuery (2 * sizeE q + 2) (strategy == STRATEGY_KEY_BASED) [] q
  if keys.isEmpty then [makeAtomKey KEY_TYPE_ATOM 0] else keys

/-- `sexp_gin_consistent` (sexp_gin.c lines 974-1020): for the containment
strategies (7, 9) every query key must be present; strategy 8 cannot
pre-filter and answers true. -/
def ginConsistent (strategy : Nat) (check : List Bool) : Bool :=
  if strategy == STRATEGY_STRUCTURAL || strategy == STRATEGY_KEY_BASED then
    check.all (fun b => b)
  else true

/-- The consistent predicate applied to the keys extracted from a stored
value `v` and a query `q` (the `check` bitmap records, per query key,
whether the key is among the value's keys — this is what the GIN posting
lists report for a single stored value). -/
def consistentOn (strategy : Nat) (v q : SexpE) : Bool :=
  ginConsistent strategy
    ((ginExtractQuery strategy q).map (fun k => decide (k ∈ ginExtractValue v)))

/-! ## Auxiliary definitions used by the claim statements -/

mutual
/-- The §3.2 invariant "the structural hash stored in the large-list header
equals the hash that would be recomputed from the children", checked over a
whole value. -/
def storedHashOk : SexpE → Bool
  | .listSmall cs => storedHashOkL cs
  | .listLarge h cs => h == recomputedListHash cs && storedHashOkL cs
  | _ => true

/-- The stored-hash invariant over a list of children. -/
def storedHashOkL : List SexpE → Bool
  | [] => true
  | c :: cs => storedHashOk c && storedHashOkL cs
end

/-- Modelled from the spec: the `number` production of the §4.9 grammar,
`[+-]? (digits ('.' digits)? ([eE][+-]? digits)?)` — written to be compared
with the code's token classification (which has no exponent clause). -/
def specNumberToken (tok : List Char) : Bool :=
  let afterSign :=
    match tok with
    | c :: r => if c == '+' || c == '-' then r else tok
    | [] => tok
  let digits := fun (l : List Char) => l.takeWhile Char.isDigit
  let rest1 := afterSign.drop (digits afterSign).length
  (digits afterSign).length > 0 &&
  (let rest2 :=
    match rest1 with
    | '.' :: r => if (digits r).length > 0 then r.drop (digits r).length else rest1
    | _ => rest1
   let rest3 :=
    match rest2 with
    | e :: r =>
        if e == 'e' || e == 'E' then
          let r2 := match r with
                    | s :: r2 => if s == '+' || s == '-' then r2 else r
                    | [] => r
          if (digits r2).length > 0 then r2.drop (digits r2).length else rest2
        else rest2
    | [] => rest2
   rest3.isEmpty)

/-- Modelled from the spec: the §4.7 meaning of a terminal rest wildcard —
"matches zero or more *trailing* elements": the pattern prefix must match
the leading expression elements pairwise and the rest token absorbs
whatever remains. -/
def matchPrefix : List SexpE → List SexpE → Bool
  | _, [] => true
  | [], _ :: _ => false
  | e :: es, p :: ps => elementsMatch e p && matchPrefix es ps

/-- A list nested to depth `d`: `(((…)))` with `d` opening and `d` closing
parens. -/
def nestedParens (d : Nat) : List Char :=
  List.replicate d '(' ++ List.replicate d ')'

/-- The value the parser produces for `nestedParens d` (`d ≥ 1`): the
innermost `()` is NIL and each enclosing pair wraps it in a one-element
small list. -/
def nestVal : Nat → SexpE
  | 0 => .nil
  | 1 => .nil
  | d + 2 => .listSmall [nestVal (d + 1)]

/-- The arithmetic run `s, s+1, …, s+k-1` (builds the C5 value, whose key
extraction overflows `MAX_GIN_KEYS`). -/
def natRun : Nat → Nat → List Nat
  | 0, _ => []
  | k + 1, s => s :: natRun k (s + 1)

/-- The children of the C5 value: 1026 distinct integer atoms `1000 … 2025`
(1026 = `MAX_GIN_KEYS` + 2, so the extraction wants 1027 distinct keys —
one LIST_HEAD key plus 1026 integer keys — and must drop the last three). -/
def c5children : List SexpE :=
  (natRun 1026 1000).map (fun (n : Nat) => SexpE.intVar (n : Int))

/-- The C5 stored value: the large list `(1000 1001 … 2025)` exactly as the
parser builds it (count 1026 > `SMALL_LIST_MAX`, stored hash recomputed from
the children). -/
def c5value : SexpE := SexpE.listLarge (recomputedListHash c5children) c5children

/-- The C5 query: the atom `2025`, the last child of `c5value`. -/
def c5query : SexpE := SexpE.intVar 2025

/-- The GIN key the extraction emits for the integer atom `n`. -/
def intKey (n : Nat) : Nat :=
  makeAtomKey KEY_TYPE_INTEGER (sexpHashInt64 (n : Int))

/-- The GIN key the extraction emits for the head of `c5value`. -/
def headKey : Nat :=
  makeAtomKey KEY_TYPE_LIST_HEAD (sexpHashInt64 ((1000 : Nat) : Int))

/-! ## Claims -/

/-- **C1.** "For every pair of values a, b obtainable through the public
operations (parse, recv, car, cdr, nth, find_first), if equal(a, b) returns
true then hash(a) equals hash(b)."  The code violates this: `sexp_cdr`
writes `dummy_hash = 0` into the large-list header it builds (pg_sexp.c
line 1221, "TODO: compute proper hash"), and `sexp_element_hash` *returns
the stored hash* for large lists (lines 1529-1535).  So
`cdr(parse("(x a b c d e f)"))` is semantically equal to
`parse("(a b c d e f)")` but hashes to 0 while the parsed value hashes to
its recomputed structural hash, which is nonzero. -/
theorem claim_C1_equal_hash_inconsistent :
    ∃ a0 a b, parseStr "(x a b c d e f)" = .ok a0 ∧
      sexpCdr a0 = .ok (some a) ∧
      parseStr "(a b c d e f)" = .ok b ∧
      sexpEqual a b = true ∧
      sexpComputeHash a = 0 ∧
      sexpComputeHash b ≠ 0 :=
  ⟨_, _, _, rfl, rfl, rfl, rfl, rfl, by decide⟩

/-- **C2.** "contains_key(C, N) with a list needle N = (h n1 ... nk) returns
true if and only if some descendant list of C has a head equal to h and each
needle tail element is key-matched by some container tail element …".  The
code violates the "if" direction: `sexp_contains_key` first performs a Bloom
rejection, and a list's Bloom signature includes a component derived from
its *exact child count*; since key-based matching allows the container list
to have extra tail elements, a matching container can lack the needle's
count signature.  For container `(a b c)` and needle `(a b)` the code's own
recursive search (`contains_key_search`, which implements the documented
semantics) answers true, but the Bloom filter rejects, so
`sexp_contains_key` answers false.  (The Bloom bit positions are those of
the modelled stable hash.) -/
theorem claim_C2_key_containment_bloom_unsound :
    ∃ c n, parseStr "(a b c)" = .ok c ∧
      parseStr "(a b)" = .ok n ∧
      containsKeySearch (keyFuel c n) c n = true ∧
      bloomMayContain (elemBloom c) (elemBloom n) = false ∧
      sexpContainsKey c n = false :=
  ⟨_, _, rfl, rfl, rfl, by decide, rfl⟩

/-- **C3.** "For every value v producible by the parser, parse(print(v))
equals v … floats are printed … in a form the parser re-accepts as a
float."  The code violates this: the printer emits floats with `%.17g`
(sexp_io.c line 301), which uses exponent notation for large or small
magnitudes (e.g. `1e+20`), but the number scanner of
`parse_number_or_symbol` treats any token containing `e` as a non-number,
so the printed text re-parses as a *symbol*.  The spec's own §4.9 grammar
(`specNumberToken` below) accepts the exponent form.  Here:
`"100000000000000000000.0"` parses as a float, while `"1e+20"` — the
`%.17g` rendering of that value — parses as a symbol even though the spec
grammar accepts it as a number. -/
theorem claim_C3_float_roundtrip_broken :
    (∃ bits, parseStr "100000000000000000000.0" = .ok (.float bits)) ∧
    parseStr "1e+20" = .ok (.symbol (['1', 'e', '+', '2', '0'].map Char.toNat)) ∧
    specNumberToken ['1', 'e', '+', '2', '0'] = true ∧
    numFlags ['1', 'e', '+', '2', '0'] = (false, false, true) :=
  ⟨⟨_, rfl⟩, rfl, rfl, rfl⟩

/-- **C4.** "Every large list inside any value produced by a public
operation stores a structural-hash field equal to the hash that would be
recomputed from its children; this invariant is preserved by every
operation that builds new values."  The code violates this: `parse`
establishes the invariant, but `sexp_cdr` builds its large-list result with
`dummy_hash = 0` (pg_sexp.c lines 1216-1277, "TODO: compute proper hash"),
so the cdr of a 7-element list is a 6-element large list whose stored hash
field (0) differs from the recomputed hash. -/
theorem claim_C4_stored_hash_invariant_broken :
    ∃ a0 a b, parseStr "(x a b c d e f)" = .ok a0 ∧
      sexpCdr a0 = .ok (some a) ∧
      parseStr "(a b c d e f)" = .ok b ∧
      storedHashOk b = true ∧
      storedHashOk a0 = true ∧
      storedHashOk a = false :=
  ⟨_, _, _, rfl, rfl, rfl, rfl, rfl, by decide⟩

/-- **C6.** "The equality walk treats the small-integer and integer
encodings as the same kind: a value encoding x ∈ −16…15 as a small-int
compares equal (via equal) to a value encoding x as a zig-zag varint
integer, and their hashes agree."  The code violates the equality half:
`elements_equal_recursive` (used by `sexp_equal`) returns false whenever
the tags differ (pg_sexp.c lines 880-882), with no small-int/integer
exception — while `atom_compare_direct` (lines 1625-1652) and
`sexp_element_hash` (lines 1450-1473) do treat them as one kind.  For
x = 5: the parser encodes it as a small-int, the varint encoding is
recv-craftable, their hashes agree and the containment comparator equates
them, yet `equal` answers false. -/
theorem claim_C6_smallint_integer_equality :
    parseStr "5" = .ok (.smallInt 5) ∧
    sexpEqual (.smallInt 5) (.intVar 5) = false ∧
    elemHash (.smallInt 5) = elemHash (.intVar 5) ∧
    atomCompareDirect (.smallInt 5) (.intVar 5) = true :=
  ⟨rfl, rfl, rfl, rfl⟩

/-- **C9.** "car(v) returns absent (not an error) when v is NIL, raises a
datatype-mismatch error (\"car requires a list\") when v is a non-list,
non-NIL atom, and returns the first child when v is a non-empty list" —
exactly the behaviour of `sexp_car` (pg_sexp.c lines 1064-1123). -/
theorem claim_C9_car_semantics :
    sexpCar .nil = .ok none ∧
    (∀ v : SexpE, v.isAtom = true →
      sexpCar v = .error (.datatypeMismatch "car requires a list")) ∧
    (∀ (h : SexpE) (cs : List SexpE), sexpCar (.listSmall (h :: cs)) = .ok (some h)) ∧
    (∀ (hh : Nat) (h : SexpE) (cs : List SexpE),
      sexpCar (.listLarge hh (h :: cs)) = .ok (some h)) := by
  refine ⟨rfl, ?_, fun h cs => rfl, fun hh h cs => rfl⟩
  intro v hv
  cases v <;> simp [SexpE.isAtom] at hv <;> rfl

/-- Witness for C9: the three behaviours at concrete inputs. -/
theorem claim_C9_car_semantics_witness :
    (SexpE.symbol [97]).isAtom = true ∧
    sexpCar (.symbol [97]) = .error (.datatypeMismatch "car requires a list") ∧
    sexpCar (.listSmall [.nil, .smallInt 1]) = .ok (some .nil) :=
  ⟨rfl, claim_C9_car_semantics.2.1 (.symbol [97]) rfl,
    claim_C9_car_semantics.2.2.1 .nil [.smallInt 1]⟩

/-- **C10.** "nth(v, 0) applied to a non-list, non-NIL atom v returns v
itself rather than absent or an error; nth(v, i) on such an atom returns
absent for every i ≠ 0, and nth on NIL returns absent for every index" —
exactly the behaviour of `sexp_nth` (pg_sexp.c lines 1347-1406, including
the `n < 0` early return). -/
theorem claim_C10_nth_atom_semantics :
    (∀ v : SexpE, v.isAtom = true → sexpNth v 0 = some v) ∧
    (∀ (v : SexpE) (i : Int), v.isAtom = true → i ≠ 0 → sexpNth v i = none) ∧
    (∀ i : Int, sexpNth .nil i = none) := by
  refine ⟨?_, ?_, ?_⟩
  · intro v hv
    cases v <;> simp [SexpE.isAtom] at hv <;> rfl
  · intro v i hv hi
    by_cases hneg : i < 0
    · cases v <;> simp [SexpE.isAtom] at hv <;> simp [sexpNth, hneg]
    · have hbeq : (i == 0) = false := by
        simp [beq_iff_eq]
        exact hi
      cases v <;> simp [SexpE.isAtom] at hv <;> simp [sexpNth, hneg, hbeq]
  · intro i
    by_cases hneg : i < 0 <;> simp [sexpNth, hneg]

/-- Witness for C10: the behaviours at concrete inputs. -/
theorem claim_C10_nth_atom_semantics_witness :
    (SexpE.smallInt 3).isAtom = true ∧ (5 : Int) ≠ 0 ∧
    sexpNth (.smallInt 3) 0 = some (.smallInt 3) ∧
    sexpNth (.smallInt 3) 5 = none ∧
    sexpNth .nil 2 = none :=
  ⟨rfl, by decide,
    claim_C10_nth_atom_semantics.1 (.smallInt 3) rfl,
    claim_C10_nth_atom_semantics.2.1 (.smallInt 3) 5 rfl (by decide),
    claim_C10_nth_atom_semantics.2.2 2⟩

/-! ### The parser on pure nestings (for C7) -/

/-- Opening paren: the parser always dispatches `(`-headed input to
`parse_list`. -/
theorem parseValueF_open (fuel depth : Nat) (cs : List Char) :
    parseValueF (fuel + 1) depth ('(' :: cs) = parseListF fuel depth cs := rfl

/-- Closing an (empty) list when the depth check passes. -/
theorem parseListF_close (fuel depth : Nat) (cs : List Char)
    (h : ¬ depth ≥ MAX_DEPTH) :
    parseListF (fuel + 1) depth (')' :: cs) = .ok (.nil, cs) := by
  simp [parseListF, h, show skipWs (')' :: cs) = ')' :: cs from rfl,
    show ((')' == ')') = true) from rfl]

/-- Entering the element loop of a non-empty list when the depth check
passes. -/
theorem parseListF_enter (fuel depth : Nat) (cs : List Char)
    (h : ¬ depth ≥ MAX_DEPTH) :
    parseListF (fuel + 1) depth ('(' :: cs) =
      parseElemsF fuel (depth + 1) ('(' :: cs) [] := by
  simp [parseListF, h, show skipWs ('(' :: cs) = '(' :: cs from rfl,
    show (('(' == ')') = false) from rfl]

/-- The depth check fires regardless of the input. -/
theorem parseListF_depth (fuel depth : Nat) (s : List Char)
    (h : depth ≥ MAX_DEPTH) :
    parseListF (fuel + 1) depth s = .error .depthExceeded := by
  simp [parseListF, h]

/-- The element loop on a `(`-headed element. -/
theorem parseElemsF_cont (fuel depth : Nat) (cs : List Char)
    (acc : List SexpE) :
    parseElemsF (fuel + 1) depth ('(' :: cs) acc =
      match parseValueF fuel depth ('(' :: cs) with
      | .error e => .error e
      | .ok (v, s2) => parseElemsF fuel depth (skipWs s2) (v :: acc) := rfl

/-- The element loop at a closing paren. -/
theorem parseElemsF_close (fuel depth : Nat) (cs : List Char)
    (acc : List SexpE) :
    parseElemsF (fuel + 1) depth (')' :: cs) acc =
      .ok (encodeListParse acc.reverse, cs) := rfl

/-- Behaviour of the parser on a pure nesting of `d + 1` lists, entered at
`depth`: it yields `nestVal (d + 1)` when every level passes the
`SEXP_CHECK_DEPTH` test — the levels run at depths
`depth, …, depth + d`, so success is `depth + d < MAX_DEPTH`, i.e.
`depth + (d + 1) ≤ MAX_DEPTH` — and the depth-exceeded error otherwise. -/
theorem parseValueF_nested (d : Nat) :
    ∀ fuel depth rest, 3 * (d + 1) ≤ fuel →
      parseValueF fuel depth
          (List.replicate (d + 1) '(' ++ (List.replicate (d + 1) ')' ++ rest)) =
        if depth + (d + 1) ≤ MAX_DEPTH then .ok (nestVal (d + 1), rest)
        else .error .depthExceeded := by
  induction d with
  | zero =>
      intro fuel depth rest hf
      rcases fuel with _ | fuel; · omega
      rcases fuel with _ | fuel; · omega
      simp [List.replicate]
      rw [parseValueF_open]
      by_cases hd : depth ≥ MAX_DEPTH
      · rw [parseListF_depth _ _ _ hd]
        have : ¬ depth + 1 ≤ MAX_DEPTH := by simp [MAX_DEPTH] at hd ⊢; omega
        simp [this, nestVal]
      · rw [parseListF_close _ _ _ hd]
        have : depth + 1 ≤ MAX_DEPTH := by simp [MAX_DEPTH] at hd ⊢; omega
        simp [this, nestVal]
  | succ d ih =>
      intro fuel depth rest hf
      rcases fuel with _ | fuel; · omega
      rcases fuel with _ | fuel; · omega
      rcases fuel with _ | fuel; · omega
      have hrepl :
          List.replicate (d + 2) '(' ++ (List.replicate (d + 2) ')' ++ rest) =
            '(' :: (List.replicate (d + 1) '(' ++
              (List.replicate (d + 1) ')' ++ (')' :: rest))) := by
        rw [List.replicate_succ, List.replicate_succ' (n := d + 1)]
        simp
      rw [hrepl, parseValueF_open]
      by_cases hd : depth ≥ MAX_DEPTH
      · rw [parseListF_depth _ _ _ hd]
        have : ¬ depth + (d + 2) ≤ MAX_DEPTH := by
          simp [MAX_DEPTH] at hd ⊢; omega
        simp [this]
      · have hopen : List.replicate (d + 1) '(' ++
            (List.replicate (d + 1) ')' ++ (')' :: rest)) =
              '(' :: (List.replicate d '(' ++
                (List.replicate (d + 1) ')' ++ (')' :: rest))) := by
          rw [List.replicate_succ]
          simp
        rw [hopen, parseListF_enter _ _ _ hd, parseElemsF_cont, ← hopen]
        rw [ih fuel (depth + 1) (')' :: rest) (by omega)]
        by_cases hA : depth + 1 + (d + 1) ≤ MAX_DEPTH
        · have hA2 : depth + (d + 2) ≤ MAX_DEPTH := by omega
          rcases fuel with _ | fuel; · omega
          simp only [hA, if_true]
          rw [show skipWs (')' :: rest) = ')' :: rest from rfl]
          rw [parseElemsF_close]
          simp [hA2, encodeListParse, recomputedListHash, nestVal,
            SMALL_LIST_MAX]
        · have hA2 : ¬ depth + (d + 2) ≤ MAX_DEPTH := by omega
          simp [hA, hA2]

/-- The top-level parser on a pure nesting of `d + 1` lists. -/
theorem sexpParse_nested (d : Nat) :
    sexpParse (nestedParens (d + 1)) =
      if d + 1 ≤ MAX_DEPTH then .ok (nestVal (d + 1)) else .error .depthExceeded := by
  have hform : nestedParens (d + 1) =
      List.replicate (d + 1) '(' ++ (List.replicate (d + 1) ')' ++ []) := by
    unfold nestedParens; simp
  have hcons : List.replicate (d + 1) '(' ++ (List.replicate (d + 1) ')' ++ []) =
      '(' :: (List.replicate d '(' ++ (List.replicate (d + 1) ')' ++
        ([] : List Char))) := by
    rw [List.replicate_succ]; simp
  rw [hform, hcons]
  unfold sexpParse
  rw [show skipWs ('(' :: (List.replicate d '(' ++ (List.replicate (d + 1) ')' ++
    ([] : List Char)))) = '(' :: (List.replicate d '(' ++
      (List.replicate (d + 1) ')' ++ ([] : List Char))) from rfl]
  simp only []
  rw [← hcons]
  have hlen : 3 * (d + 1) ≤
      4 * (List.replicate (d + 1) '(' ++
        (List.replicate (d + 1) ')' ++ ([] : List Char))).length + 8 := by
    simp [List.length_append, List.length_replicate]
    omega
  rw [parseValueF_nested d _ 0 [] hlen]
  by_cases hA : d + 1 ≤ MAX_DEPTH
  · have h0 : (0 : Nat) + (d + 1) ≤ MAX_DEPTH := by omega
    simp [h0, hA, show skipWs ([] : List Char) = [] from rfl]
  · have h0 : ¬ (0 : Nat) + (d + 1) ≤ MAX_DEPTH := by omega
    simp [h0, hA]

/-! ### The rest wildcard (for C8) -/

/-- Unfolding: `match_elements` with an exhausted pattern checks that the
expression is exhausted too. -/
theorem matchElements_nil (es : List SexpE) :
    matchElements es [] = es.isEmpty := by
  cases es <;> rfl

/-- Unfolding: one step of the pattern loop of `match_elements` on an
exhausted expression. -/
theorem matchElements_cons_nil (p : SexpE) (ps : List SexpE) :
    matchElements [] (p :: ps) =
      if isRestElem p then (if ps.isEmpty then true else false)
      else false := rfl

/-- Unfolding: one step of the pattern loop of `match_elements`. -/
theorem matchElements_cons_cons (e : SexpE) (es : List SexpE) (p : SexpE)
    (ps : List SexpE) :
    matchElements (e :: es) (p :: ps) =
      if isRestElem p then (if ps.isEmpty then true else false)
      else elementsMatch e p && matchElements es ps := rfl

/-- Unfolding lemmas for `matchPrefix`. -/
theorem matchPrefix_nil (es : List SexpE) : matchPrefix es [] = true := by
  cases es <;> rfl

/-- `matchPrefix` on an exhausted expression with pattern left. -/
theorem matchPrefix_nil2 (p : SexpE) (ps : List SexpE) :
    matchPrefix [] (p :: ps) = false := rfl

/-- `matchPrefix` on a head pair. -/
theorem matchPrefix_cons (e : SexpE) (es : List SexpE) (p : SexpE)
    (ps : List SexpE) :
    matchPrefix (e :: es) (p :: ps) = (elementsMatch e p && matchPrefix es ps) :=
  rfl

/-- A rest token in non-terminal position makes the whole list pattern fail
on every expression: `match_elements` returns false the moment it reaches
the rest token and sees `pat_i + 1 != pat_count` (sexp_match.c lines
474-479), and every route before that either consumes one element or fails.
-/
theorem matchElements_rest_nonterminal (ps : List SexpE) :
    ∀ es qs p, isRestElem p = true → qs ≠ [] →
      matchElements es (ps ++ p :: qs) = false := by
  induction ps with
  | nil =>
      intro es qs p hp hqs
      have hne : qs.isEmpty = false := by
        cases qs with
        | nil => exact absurd rfl hqs
        | cons q qs2 => rfl
      cases es with
      | nil => rw [List.nil_append, matchElements_cons_nil, hp]; simp [hne]
      | cons e es2 => rw [List.nil_append, matchElements_cons_cons, hp]; simp [hne]
  | cons x ps2 ih =>
      intro es qs p hp hqs
      by_cases hx : isRestElem x = true
      · have hne : (ps2 ++ p :: qs).isEmpty = false := by
          cases ps2 <;> simp
        cases es with
        | nil => rw [List.cons_append, matchElements_cons_nil, hx]; simp [hne]
        | cons e es2 =>
            rw [List.cons_append, matchElements_cons_cons, hx]; simp [hne]
      · rw [Bool.not_eq_true] at hx
        cases es with
        | nil => rw [List.cons_append, matchElements_cons_nil, hx]; simp
        | cons e es2 =>
            rw [List.cons_append, matchElements_cons_cons, hx,
              ih es2 qs p hp hqs]
            simp

/-- A terminal rest token means exactly "the pattern prefix matches the
leading expression elements pairwise; the rest absorbs all trailing
elements" (`matchPrefix`, the spec's §4.7 reading). -/
theorem matchElements_rest_terminal (ps : List SexpE) :
    ∀ es, (∀ x ∈ ps, isRestElem x = false) →
      matchElements es (ps ++ [SexpE.symbol [95, 42]]) = matchPrefix es ps := by
  induction ps with
  | nil =>
      intro es _
      cases es with
      | nil =>
          rw [List.nil_append, matchElements_cons_nil,
            show isRestElem (SexpE.symbol [95, 42]) = true from rfl,
            matchPrefix_nil]
          simp
      | cons e es2 =>
          rw [List.nil_append, matchElements_cons_cons,
            show isRestElem (SexpE.symbol [95, 42]) = true from rfl,
            matchPrefix_nil]
          simp
  | cons x ps2 ih =>
      intro es hx
      have hx0 : isRestElem x = false := hx x (List.mem_cons_self x ps2)
      have hx2 : ∀ y ∈ ps2, isRestElem y = false := fun y hy =>
        hx y (List.mem_cons_of_mem x hy)
      cases es with
      | nil =>
          rw [List.cons_append, matchElements_cons_nil, hx0, matchPrefix_nil2]
          simp
      | cons e es2 =>
          rw [List.cons_append, matchElements_cons_cons, hx0,
            matchPrefix_cons, ih es2 hx2]
          simp

/-- **C8.** "The rest wildcard `_*` matches zero or more trailing elements
of its enclosing list and must be its last element; a list pattern with a
rest token in non-terminal position matches no expression.  `(+ 1 2 3)`
matches `(+ _*)` but not `(+ _ _)`."  All four parts hold of
`sexp_match` / `match_elements` (sexp_match.c lines 396-534);
`[95, 42]` is the byte string of the symbol `_*`. -/
theorem claim_C8_rest_wildcard :
    (∀ (es ps qs : List SexpE) (p : SexpE), isRestElem p = true → qs ≠ [] →
      matchElements es (ps ++ p :: qs) = false) ∧
    (∀ (es ps : List SexpE), (∀ x ∈ ps, isRestElem x = false) →
      matchElements es (ps ++ [SexpE.symbol [95, 42]]) = matchPrefix es ps) ∧
    (∃ e p1 p2, parseStr "(+ 1 2 3)" = .ok e ∧
      parseStr "(+ _*)" = .ok p1 ∧
      parseStr "(+ _ _)" = .ok p2 ∧
      sexpMatch e p1 = true ∧
      sexpMatch e p2 = false) :=
  ⟨fun es ps qs p hp hqs => matchElements_rest_nonterminal ps es qs p hp hqs,
   fun es ps h => matchElements_rest_terminal ps es h,
   ⟨_, _, _, rfl, rfl, rfl, rfl, rfl⟩⟩

/-- Witness for C8: the two universally quantified parts instantiated at
concrete inputs with their hypotheses discharged. -/
theorem claim_C8_rest_wildcard_witness :
    (isRestElem (SexpE.symbol [95, 42]) = true ∧
      matchElements [SexpE.nil] [SexpE.symbol [95, 42], SexpE.nil] = false) ∧
    (matchElements [SexpE.nil, SexpE.smallInt 1]
        ([SexpE.nil] ++ [SexpE.symbol [95, 42]]) =
      matchPrefix [SexpE.nil, SexpE.smallInt 1] [SexpE.nil]) :=
  ⟨⟨rfl,
    claim_C8_rest_wildcard.1 [SexpE.nil] [] [SexpE.nil] (SexpE.symbol [95, 42])
      rfl (by simp)⟩,
   claim_C8_rest_wildcard.2.1 [SexpE.nil, SexpE.smallInt 1] [SexpE.nil]
     (by intro x hx; simp at hx; rw [hx]; rfl)⟩

/-- **C7 (counterexample).** The claim says a list nested to depth
`MAX_DEPTH` (1000) raises a limit-exceeded error; in fact the parser
accepts it: `SEXP_CHECK_DEPTH(state->depth)` runs at the *entry* of
`parse_list` on the depth of the enclosing levels, so the innermost of
1000 lists is checked at depth 999 < 1000 and passes. -/
theorem claim_C7_counterexample :
    sexpParse (nestedParens 1000) = .ok (nestVal 1000) := by
  have h := sexpParse_nested 999
  simp [MAX_DEPTH] at h
  exact h

/-- **C7 (amended).** The parser accepts a list nested to depth
`MAX_DEPTH − 1` (999) and to depth `MAX_DEPTH` (1000), and raises the
limit-exceeded error for a list nested to depth `MAX_DEPTH + 1` (1001). -/
theorem claim_C7_depth_boundary :
    sexpParse (nestedParens 999) = .ok (nestVal 999) ∧
    sexpParse (nestedParens 1000) = .ok (nestVal 1000) ∧
    sexpParse (nestedParens 1001) = .error .depthExceeded := by
  refine ⟨?_, ?_, ?_⟩
  · have h := sexpParse_nested 998
    simp [MAX_DEPTH] at h
    exact h
  · have h := sexpParse_nested 999
    simp [MAX_DEPTH] at h
    exact h
  · have h := sexpParse_nested 1000
    simp [MAX_DEPTH] at h
    exact h

/-! ### C5: GIN key-cap truncation vs containment

The development below settles C5 symbolically (the 1026-child value is too
large to evaluate inside the kernel): the value-side key extraction is
characterised as a capped fold, the fold is shown to drop every key past
`MAX_GIN_KEYS`, the emitted keys are shown pairwise distinct via the hash
of small integers, and the containment side is settled by a membership
argument through the Bloom signature and the recursive scan. -/

theorem natRun_length (k : Nat) : ∀ s, (natRun k s).length = k := by
  induction k with
  | zero => intro s; rfl
  | succ k ih => intro s; simp [natRun, ih]

theorem natRun_mem (k : Nat) : ∀ s n, n ∈ natRun k s ↔ s ≤ n ∧ n < s + k := by
  induction k with
  | zero =>
      intro s n
      rw [show natRun 0 s = [] from rfl]
      constructor
      · intro hmem
        cases hmem
      · intro hb
        exact absurd hb (by omega)
  | succ k ih => intro s n; simp [natRun, ih]; omega

theorem natRun_nodup (k : Nat) : ∀ s, (natRun k s).Nodup := by
  induction k with
  | zero => intro s; simp [natRun]
  | succ k ih =>
      intro s
      rw [show natRun (k + 1) s = s :: natRun k (s + 1) from rfl]
      refine List.nodup_cons.mpr ⟨?_, ih (s + 1)⟩
      simp only [natRun_mem]
      omega

theorem natRun_take (k : Nat) : ∀ s j, (natRun k s).take j = natRun (min j k) s := by
  induction k with
  | zero => intro s j; simp [natRun]
  | succ k ih =>
      intro s j
      cases j with
      | zero => simp [natRun]
      | succ j =>
          rw [show natRun (k + 1) s = s :: natRun k (s + 1) from rfl,
            List.take_succ_cons, ih]
          rw [show min (j + 1) (k + 1) = min j k + 1 from by omega]
          rfl

theorem toU64_ofNat (n : Nat) (h : n < 2 ^ 64) : toU64 (n : Int) = n := by
  simp only [toU64]
  omega

theorem leBytes_eight (n : Nat) :
    leBytes 8 n = [n % 256, n / 256 % 256, n / 256 / 256 % 256,
      n / 256 / 256 / 256 % 256, n / 256 / 256 / 256 / 256 % 256,
      n / 256 / 256 / 256 / 256 / 256 % 256,
      n / 256 / 256 / 256 / 256 / 256 / 256 % 256,
      n / 256 / 256 / 256 / 256 / 256 / 256 / 256 % 256] := rfl

theorem hashBytes_two (a b : Nat) (ha : a < 256) (hb : b < 256) :
    hashBytes [a, b, 0, 0, 0, 0, 0, 0] = a + 257 * b := by
  simp only [hashBytes, List.foldr_cons, List.foldr_nil]
  norm_num
  rw [Nat.mod_eq_of_lt hb,
    Nat.mod_eq_of_lt (show b < 4294967291 from by omega),
    Nat.mod_eq_of_lt ha,
    Nat.mod_eq_of_lt (show b * 257 + a < 4294967291 from by omega)]
  omega

theorem sexpHashInt64_ofNat_small (n : Nat) (h : n < 65536) :
    sexpHashInt64 (n : Int) = n % 256 + 257 * (n / 256) := by
  show hashBytes (leBytes 8 (toU64 (n : Int))) = _
  rw [toU64_ofNat n (by omega), leBytes_eight,
    show n / 256 / 256 = 0 from by omega,
    show n / 256 % 256 = n / 256 from by omega]
  norm_num
  exact hashBytes_two (n % 256) (n / 256) (by omega) (by omega)

theorem makeAtomKey_mod24 (M h : Nat) (hM : ∀ i, i < 24 → M.testBit i = false)
    (hh : h < 2 ^ 24) : makeAtomKey M h % 2 ^ 24 = h := by
  have h32 : h % 4294967296 = h := Nat.mod_eq_of_lt (by omega)
  apply Nat.eq_of_testBit_eq
  intro i
  rw [Nat.testBit_mod_two_pow]
  by_cases hi : i < 24
  · have hb : Nat.testBit 0x80000000 i = false := by
      rw [show (0x80000000 : Nat) = 2 ^ 31 from rfl, Nat.testBit_two_pow]
      simp
      omega
    simp [makeAtomKey, h32, hM i hi, hb, hi]
  · have hhi : Nat.testBit h i = false :=
      Nat.testBit_lt_two_pow
        (lt_of_lt_of_le hh (Nat.pow_le_pow_right (by omega) (by omega)))
    simp [hi, hhi]

theorem makeAtomKey_shiftRight24 (M h : Nat) (hh : h < 2 ^ 24) :
    makeAtomKey M h >>> 24 = (M ||| 0x80000000) >>> 24 := by
  have h32 : h % 4294967296 = h := Nat.mod_eq_of_lt (by omega)
  apply Nat.eq_of_testBit_eq
  intro i
  have hhi : Nat.testBit h (24 + i) = false :=
    Nat.testBit_lt_two_pow
      (lt_of_lt_of_le hh (Nat.pow_le_pow_right (by omega) (by omega)))
  simp [makeAtomKey, h32, hhi]

theorem intKey_inj (a b : Nat) (ha : a < 65536) (hb : b < 65536)
    (he : intKey a = intKey b) : a = b := by
  have hma : ∀ i, i < 24 → Nat.testBit KEY_TYPE_INTEGER i = false := by decide
  have hha : sexpHashInt64 (a : Int) < 2 ^ 24 := by
    rw [sexpHashInt64_ofNat_small a ha]; omega
  have hhb : sexpHashInt64 (b : Int) < 2 ^ 24 := by
    rw [sexpHashInt64_ofNat_small b hb]; omega
  have h1 := makeAtomKey_mod24 KEY_TYPE_INTEGER _ hma hha
  have h2 := makeAtomKey_mod24 KEY_TYPE_INTEGER _ hma hhb
  have heq : sexpHashInt64 (a : Int) = sexpHashInt64 (b : Int) := by
    rw [← h1, ← h2]
    unfold intKey at he
    rw [he]
  rw [sexpHashInt64_ofNat_small a ha, sexpHashInt64_ofNat_small b hb] at heq
  omega

theorem intKey_ne_headKey (n : Nat) (hn : n < 65536) : intKey n ≠ headKey := by
  intro he
  have hhn : sexpHashInt64 (n : Int) < 2 ^ 24 := by
    rw [sexpHashInt64_ofNat_small n hn]; omega
  have hh1000 : sexpHashInt64 ((1000 : Nat) : Int) < 2 ^ 24 := by
    rw [sexpHashInt64_ofNat_small 1000 (by omega)]; omega
  have h1 := makeAtomKey_shiftRight24 KEY_TYPE_INTEGER _ hhn
  have h2 := makeAtomKey_shiftRight24 KEY_TYPE_LIST_HEAD _ hh1000
  have hne : (KEY_TYPE_INTEGER ||| 0x80000000) >>> 24 =
      (KEY_TYPE_LIST_HEAD ||| 0x80000000) >>> 24 := by
    rw [← h1, ← h2]
    unfold intKey headKey at he
    rw [he]
  revert hne
  decide

theorem foldl_addKey_capped (ks : List Nat) : ∀ keys : List Nat,
    MAX_GIN_KEYS ≤ keys.length → List.foldl addKey keys ks = keys := by
  induction ks with
  | nil => intro keys _; rfl
  | cons k ks ih =>
      intro keys hlen
      have hk : addKey keys k = keys := by
        unfold addKey
        rw [if_pos hlen]
      rw [List.foldl_cons, hk, ih keys hlen]

theorem foldl_addKey_fresh (ks : List Nat) : ∀ keys : List Nat, ks.Nodup →
    (∀ k ∈ ks, k ∉ keys) →
    List.foldl addKey keys ks = keys ++ ks.take (MAX_GIN_KEYS - keys.length) := by
  induction ks with
  | nil => intro keys _ _; simp
  | cons k ks ih =>
      intro keys hnd hfresh
      by_cases hcap : MAX_GIN_KEYS ≤ keys.length
      · rw [foldl_addKey_capped (k :: ks) keys hcap,
          show MAX_GIN_KEYS - keys.length = 0 from by omega]
        simp
      · have hk : addKey keys k = keys ++ [k] := by
          unfold addKey
          rw [if_neg hcap, if_neg (hfresh k (List.mem_cons_self k ks))]
        have hfresh2 : ∀ x ∈ ks, x ∉ keys ++ [k] := by
          intro x hx hmem
          rcases List.mem_append.mp hmem with hm | hm
          · exact hfresh x (List.mem_cons_of_mem k hx) hm
          · rw [List.mem_singleton] at hm
            subst hm
            exact (List.nodup_cons.mp hnd).1 hx
        rw [List.foldl_cons, hk, ih (keys ++ [k]) (List.nodup_cons.mp hnd).2 hfresh2]
        rw [List.length_append, List.length_singleton,
          show MAX_GIN_KEYS - (keys.length + 1) = (MAX_GIN_KEYS - keys.length) - 1
            from by omega]
        rw [show MAX_GIN_KEYS - keys.length = ((MAX_GIN_KEYS - keys.length) - 1) + 1
            from by omega]
        rw [List.take_succ_cons]
        simp

theorem extractKeysValFold_atoms (ns : List Nat) :
    ∀ (fuel : Nat) (keys : List Nat), ns.length < fuel →
    extractKeysValFold fuel keys (ns.map (fun (n : Nat) => SexpE.intVar (n : Int))) =
      List.foldl addKey keys (ns.map intKey) := by
  induction ns with
  | nil =>
      intro fuel keys h
      cases fuel with
      | zero => omega
      | succ f => rfl
  | cons n ns ih =>
      intro fuel keys h
      have hlen : ns.length + 1 < fuel := by
        simpa using h
      cases fuel with
      | zero => omega
      | succ f =>
          cases f with
          | zero => omega
          | succ f2 =>
              rw [show extractKeysValFold (f2 + 1 + 1) keys
                    ((n :: ns).map (fun (n : Nat) => SexpE.intVar (n : Int))) =
                  extractKeysValFold (f2 + 1)
                    (extractKeysVal (f2 + 1) keys (SexpE.intVar (n : Int)))
                    (ns.map (fun (n : Nat) => SexpE.intVar (n : Int))) from rfl]
              rw [show extractKeysVal (f2 + 1) keys (SexpE.intVar (n : Int)) =
                  addKey keys (intKey n) from rfl]
              rw [ih (f2 + 1) (addKey keys (intKey n)) (by omega)]
              rfl

theorem sizeL_atoms (ns : List Nat) :
    sizeL (ns.map (fun (n : Nat) => SexpE.intVar (n : Int))) = ns.length := by
  induction ns with
  | nil => rfl
  | cons n ns ih =>
      rw [List.map_cons,
        show sizeL (SexpE.intVar (n : Int) ::
            ns.map (fun (n : Nat) => SexpE.intVar (n : Int))) =
          1 + sizeL (ns.map (fun (n : Nat) => SexpE.intVar (n : Int))) from rfl,
        ih, List.length_cons]
      omega

theorem extractKeysVal_listLarge (fuel : Nat) (keys : List Nat) (h : Nat)
    (cs : List SexpE) :
    extractKeysVal (fuel + 1) keys (SexpE.listLarge h cs) =
      extractKeysValFold fuel (listNodeKeys false keys cs) cs := rfl

theorem ginExtractValue_c5 :
    ginExtractValue c5value = headKey :: (natRun 1023 1000).map intKey := by
  have hszL : sizeL c5children = 1026 := by
    rw [show c5children =
        (natRun 1026 1000).map (fun (n : Nat) => SexpE.intVar (n : Int)) from rfl,
      sizeL_atoms, natRun_length]
  have hsz : sizeE c5value = 1027 := by
    rw [show sizeE c5value = 1 + sizeL c5children from rfl, hszL]
  have hpair : isPairList (SexpE.intVar (1000 : Int) ::
      (natRun 1025 1001).map (fun (n : Nat) => SexpE.intVar (n : Int))) = false := by
    have hl : (SexpE.intVar (1000 : Int) ::
        (natRun 1025 1001).map (fun (n : Nat) => SexpE.intVar (n : Int))).length =
          1026 := by
      rw [List.length_cons, List.length_map, natRun_length]
    simp [isPairList, hl]
  have hnode : listNodeKeys false [] c5children = [headKey] := by
    rw [show c5children = SexpE.intVar ((1000 : Nat) : Int) ::
        (natRun 1025 1001).map (fun (n : Nat) => SexpE.intVar (n : Int)) from rfl]
    simp [listNodeKeys, hpair, addKey, MAX_GIN_KEYS, getElementHash, headKey]
  have hfold : extractKeysVal (2 * sizeE c5value + 2) [] c5value =
      List.foldl addKey [headKey] ((natRun 1026 1000).map intKey) := by
    rw [show (2 : Nat) * sizeE c5value + 2 = (2 * sizeE c5value + 1) + 1 from rfl]
    rw [show extractKeysVal ((2 * sizeE c5value + 1) + 1) [] c5value =
        extractKeysValFold (2 * sizeE c5value + 1) (listNodeKeys false [] c5children)
          c5children from
      extractKeysVal_listLarge (2 * sizeE c5value + 1) []
        (recomputedListHash c5children) c5children]
    rw [hnode,
      show c5children =
        (natRun 1026 1000).map (fun (n : Nat) => SexpE.intVar (n : Int)) from rfl,
      extractKeysValFold_atoms (natRun 1026 1000) (2 * sizeE c5value + 1) [headKey]
        (by rw [natRun_length, hsz]; omega)]
  have hnodup : ((natRun 1026 1000).map intKey).Nodup := by
    refine List.Nodup.map_on ?_ (natRun_nodup 1026 1000)
    intro x hx y hy hxy
    rw [natRun_mem] at hx hy
    exact intKey_inj x y (by omega) (by omega) hxy
  have hfreshK : ∀ k ∈ (natRun 1026 1000).map intKey, k ∉ [headKey] := by
    intro k hk hmem
    rcases List.mem_map.mp hk with ⟨n, hn, he⟩
    rw [natRun_mem] at hn
    rw [List.mem_singleton] at hmem
    exact intKey_ne_headKey n (by omega) (he.trans hmem)
  have hgrow : List.foldl addKey [headKey] ((natRun 1026 1000).map intKey) =
      headKey :: (natRun 1023 1000).map intKey := by
    rw [foldl_addKey_fresh ((natRun 1026 1000).map intKey) [headKey] hnodup hfreshK]
    rw [show MAX_GIN_KEYS - ([headKey] : List Nat).length = 1023 from rfl]
    rw [← List.map_take, natRun_take,
      show min 1023 1026 = 1023 from by omega]
    rfl
  have hkeys : extractKeysVal (2 * sizeE c5value + 2) [] c5value =
      headKey :: (natRun 1023 1000).map intKey := by
    rw [hfold, hgrow]
  show (if (extractKeysVal (2 * sizeE c5value + 2) [] c5value).isEmpty then
      [makeAtomKey KEY_TYPE_ATOM 0]
    else extractKeysVal (2 * sizeE c5value + 2) [] c5value) = _
  rw [hkeys]
  rfl

theorem c5_query_key_not_extracted : intKey 2025 ∉ ginExtractValue c5value := by
  rw [ginExtractValue_c5]
  intro hmem
  rcases List.mem_cons.mp hmem with h | h
  · exact intKey_ne_headKey 2025 (by omega) h
  · rcases List.mem_map.mp h with ⟨n, hn, he⟩
    rw [natRun_mem] at hn
    have := intKey_inj n 2025 (by omega) (by omega) he
    omega

theorem ginExtractQuery_c5 :
    ginExtractQuery STRATEGY_STRUCTURAL c5query = [intKey 2025] := rfl

theorem c5_consistent_false :
    consistentOn STRATEGY_STRUCTURAL c5value c5query = false := by
  have h1 : decide (intKey 2025 ∈ ginExtractValue c5value) = false :=
    decide_eq_false c5_query_key_not_extracted
  show ginConsistent STRATEGY_STRUCTURAL
      ((ginExtractQuery STRATEGY_STRUCTURAL c5query).map
        (fun k => decide (k ∈ ginExtractValue c5value))) = false
  rw [ginExtractQuery_c5]
  show ginConsistent STRATEGY_STRUCTURAL
      [decide (intKey 2025 ∈ ginExtractValue c5value)] = false
  rw [h1]
  rfl

theorem lor_lt_two_pow {n a b : Nat} (ha : a < 2 ^ n) (hb : b < 2 ^ n) :
    a ||| b < 2 ^ n := by
  apply Nat.lt_pow_two_of_testBit
  intro i hi
  rw [Nat.testBit_or,
    Nat.testBit_lt_two_pow (lt_of_lt_of_le ha (Nat.pow_le_pow_right (by omega) hi)),
    Nat.testBit_lt_two_pow (lt_of_lt_of_le hb (Nat.pow_le_pow_right (by omega) hi))]
  rfl

theorem bloomComputeSig_lt (h : Nat) : bloomComputeSig h < 2 ^ 64 := by
  have hp : ∀ r : Nat, 2 ^ (r % 64) < 2 ^ 64 := fun r =>
    (Nat.pow_lt_pow_iff_right (by omega)).mpr (Nat.mod_lt r (by omega))
  show (((0 ||| 2 ^ (rotl32 h (0 * 8) % 64)) ||| 2 ^ (rotl32 h (1 * 8) % 64)) |||
      2 ^ (rotl32 h (2 * 8) % 64)) ||| 2 ^ (rotl32 h (3 * 8) % 64) < 2 ^ 64
  exact lor_lt_two_pow
    (lor_lt_two_pow
      (lor_lt_two_pow (lor_lt_two_pow (Nat.two_pow_pos 64) (hp _)) (hp _))
      (hp _))
    (hp _)

theorem elemBloomList_absorb (cs : List SexpE) (c : SexpE) (h : c ∈ cs) :
    elemBloom c ||| elemBloomList cs = elemBloomList cs := by
  induction cs with
  | nil => cases h
  | cons a rest ih =>
      rw [show elemBloomList (a :: rest) =
          elemBloom a ||| elemBloomList rest from rfl]
      rcases List.mem_cons.mp h with he | hm
      · rw [he, ← Nat.or_assoc, Nat.or_self]
      · rw [← Nat.or_assoc, Nat.or_comm (elemBloom c) (elemBloom a),
          Nat.or_assoc, ih hm]

theorem bloomMayContain_of_subset (C N : Nat) (hsub : N ||| C = C)
    (hN : N < 2 ^ 64) : bloomMayContain C N = true := by
  have hz : N &&& (2 ^ 64 - 1 - C % 2 ^ 64) = 0 := by
    apply Nat.eq_of_testBit_eq
    intro i
    rw [Nat.testBit_and, Nat.zero_testBit]
    by_cases hi : i < 64
    · by_cases hbit : N.testBit i = true
      · have hC : C.testBit i = true := by
          have hcongr := congrArg (fun x => Nat.testBit x i) hsub
          simp only [Nat.testBit_or, hbit, Bool.true_or] at hcongr
          exact hcongr.symm
        have hmlt : C % 2 ^ 64 < 2 ^ 64 := Nat.mod_lt _ (Nat.two_pow_pos 64)
        have hCm : (C % 2 ^ 64).testBit i = true := by
          rw [Nat.testBit_mod_two_pow, hC]
          simp [hi]
        rw [show 2 ^ 64 - 1 - C % 2 ^ 64 = 2 ^ 64 - (C % 2 ^ 64 + 1) from by omega,
          Nat.testBit_two_pow_sub_succ hmlt, hCm]
        simp
      · rw [Bool.not_eq_true] at hbit
        rw [hbit, Bool.false_and]
    · have hb0 : N.testBit i = false :=
        Nat.testBit_lt_two_pow
          (lt_of_lt_of_le hN (Nat.pow_le_pow_right (by omega) (by omega)))
      rw [hb0, Bool.false_and]
  show (N &&& (2 ^ 64 - 1 - C % 2 ^ 64) == 0) = true
  rw [hz]
  rfl

theorem c5_query_mem : c5query ∈ c5children := by
  show SexpE.intVar 2025 ∈
    (natRun 1026 1000).map (fun (n : Nat) => SexpE.intVar (n : Int))
  exact List.mem_map.mpr ⟨2025, by rw [natRun_mem]; omega, rfl⟩

theorem elemBloom_listLarge (h : Nat) (cs : List SexpE) :
    elemBloom (SexpE.listLarge h cs) =
      elemBloomList cs |||
        bloomComputeSig (hashCombine (sexpHashUint32 cs.length)
          (sexpHashUint32 TAG_LIST)) := rfl

theorem c5_bloom_pass :
    bloomMayContain (elemBloom c5value) (elemBloom c5query) = true := by
  have hv : elemBloom c5value =
      elemBloomList c5children |||
        bloomComputeSig (hashCombine (sexpHashUint32 c5children.length)
          (sexpHashUint32 TAG_LIST)) :=
    elemBloom_listLarge (recomputedListHash c5children) c5children
  have hsub : elemBloom c5query ||| elemBloom c5value = elemBloom c5value := by
    rw [hv, ← Nat.or_assoc, elemBloomList_absorb c5children c5query c5_query_mem]
  have hN : elemBloom c5query < 2 ^ 64 := bloomComputeSig_lt _
  exact bloomMayContain_of_subset _ _ hsub hN

theorem containsScanChildren_of_mem (cs : List SexpE) (e c : SexpE) (hm : c ∈ cs)
    (hf : (sentryType c == sentryType e || sentryType c == SENTRY_LIST) = true)
    (hc : containsFastScan c e = true) : containsScanChildren cs e = true := by
  induction cs with
  | nil => cases hm
  | cons a rest ih =>
      rw [show containsScanChildren (a :: rest) e =
          ((if sentryType a == sentryType e || sentryType a == SENTRY_LIST
            then containsFastScan a e else false) || containsScanChildren rest e)
          from rfl]
      rcases List.mem_cons.mp hm with he | hmem
      · subst he
        rw [if_pos hf, hc]
        rfl
      · rw [ih hmem, Bool.or_true]

theorem containsFastScan_listLarge (h : Nat) (cs : List SexpE) (e : SexpE) :
    containsFastScan (SexpE.listLarge h cs) e =
      ((if sentryType (SexpE.listLarge h cs) == sentryType e &&
           firstByte (SexpE.listLarge h cs) == firstByte e then
         (if sentryType e != SENTRY_LIST then
            atomCompareDirect (SexpE.listLarge h cs) e
          else elementsEqualRec (SexpE.listLarge h cs) e)
        else false) || containsScanChildren cs e) := rfl

theorem c5_scan_true : containsFastScan c5value c5query = true := by
  have hself : containsFastScan c5query c5query = true := rfl
  have h1 : containsFastScan c5value c5query =
      ((if sentryType c5value == sentryType c5query &&
           firstByte c5value == firstByte c5query then
         (if sentryType c5query != SENTRY_LIST then
            atomCompareDirect c5value c5query
          else elementsEqualRec c5value c5query)
        else false) || containsScanChildren c5children c5query) :=
    containsFastScan_listLarge (recomputedListHash c5children) c5children c5query
  rw [h1,
    show (sentryType c5value == sentryType c5query &&
      firstByte c5value == firstByte c5query) = false from rfl,
    if_neg Bool.false_ne_true, Bool.false_or]
  exact containsScanChildren_of_mem c5children c5query c5query c5_query_mem rfl hself

/-- C5. "For every stored value v, query q, and strategy in {STRUCTURAL,
KEY_BASED}: if the consistent predicate applied to the keys extracted from v
and from q returns false, then the corresponding containment predicate
returns false on (v, q) — including for values whose key extraction hits the
key-count cap."  The code violates this exactly at the cap: for the
1026-element list value `(1000 1001 … 2025)` the extraction wants 1027
distinct keys (one LIST_HEAD key plus one integer key per child) but
`add_key` silently drops everything past `MAX_GIN_KEYS` (1024), so the key
of the child `2025` is never emitted for the value while the STRUCTURAL
query extraction for `2025` emits exactly that key; `sexp_gin_consistent`
then reports false although `sexp_contains` (operator `@>`, the predicate
the strategy-7 index scan serves) is true, i.e. an index scan would miss a
matching row. -/
theorem claim_C5_gin_consistent_unsound :
    consistentOn STRATEGY_STRUCTURAL c5value c5query = false ∧
    sexpContains c5value c5query = true := by
  refine ⟨c5_consistent_false, ?_⟩
  show (if !bloomMayContain (elemBloom c5value) (elemBloom c5query) then false
    else containsFastScan c5value c5query) = true
  rw [c5_bloom_pass]
  show containsFastScan c5value c5query = true
  exact c5_scan_true

end PgSexp
